import Mathlib

/-!
Verification of the upload-validation / rate-limiting / Merkle-digest /
RFM-segmentation core of the CRM backend (`Backend/app.py`).

The Python code is shallowly embedded: every function of interest is
translated into an executable Lean definition over an explicit model of the
Python values it manipulates.  Conventions used throughout:

* Python `str` is Lean `String`; the character-level pipeline
  (strip / replace / truncate) works on `List Char`.  `str.strip()` is
  modelled over the ASCII whitespace characters (space, TAB, LF, CR, VT, FF);
  exotic Unicode whitespace is not modelled.
* Python `int` is Lean `Int`.  `int(s)` is modelled by `pyParseInt`
  (optional sign, decimal digits; numeric-literal underscores and Unicode
  digits are not modelled).
* Python `float` is modelled *exactly* by `Dec`, a sign-carrying decimal
  mantissa/exponent pair denoting `m / 10 ^ e`.  `float(s)` parses a decimal
  literal with optional fraction and exponent (`inf` / `nan` and the
  shortest-round-trip quirks of binary floats are not modelled: the
  validator only parses float fields and echoes them back through
  `str(...)`, and for every literal the claims exercise, CPython's
  shortest-round-trip `repr` prints the same digits that were parsed).
  `str(float)` is modelled by `decRepr`, positional notation with a
  mandatory fractional part, exactly CPython's output for the magnitudes
  involved (CPython switches to exponent notation only beyond 1e16).
* `datetime.fromisoformat` is modelled after CPython ≤ 3.10 (the version
  the source targets: it pre-replaces "Z" because those interpreters
  reject it): a rigid `YYYY-MM-DD` prefix, an arbitrary separator
  character, `HH[:MM[:SS[.fff[fff]]]]`, and an optional `±HH:MM[:SS[.ffffff]]`
  offset located at the first `-` (else first `+`) of the time part.
  `int()`'s leniency inside fixed-width fields (embedded signs/spaces)
  is not modelled.
* `datetime.strptime` with the three formats used by the source is
  modelled by translating the regexes CPython builds for `%Y`, `%m`, `%d`
  (`\d\d\d\d`, `1[0-2]|0[1-9]|[1-9]`, `3[01]|[12]\d|0[1-9]|[1-9]`);
  with the `-` and `/` literals of these formats the ordered-alternative
  match never needs backtracking, so a committed parser is exact.
* While loops are translated with an explicit fuel argument equal to a
  bound on the iteration count, keeping every definition kernel-reducible.
-/

/- Batteries marks the `Rat` arithmetic `@[irreducible]`, which blocks
`decide`/`rfl` evaluation of the segmentation engine on concrete inputs;
restore the ordinary reducibility of those (perfectly computable)
definitions for this file. -/
set_option allowUnsafeReducibility true

attribute [local semireducible] Rat.add Rat.sub Rat.mul Rat.inv Rat.div Rat.ofScientific

/-- `⌊q⌋` computed by integer division (kernel-reducible, unlike the
`FloorRing` projection); `ratFloor_eq_floor` below bridges to `Int.floor`. -/
def ratFloor (q : ℚ) : Int := q.num.ediv q.den

/-! ## Decimal numbers: the exact model of Python floats -/

/-- Exact decimal: denotes `m / 10 ^ e`.  Canonical form: `e = 0` or
`m % 10 ≠ 0` (trailing zeros moved out of the fraction, which also forces
`m = 0 → e = 0`). -/
structure Dec where
  m : Int
  e : Nat
deriving DecidableEq

/-- Canonical-form test for `Dec`. -/
def Dec.canon (d : Dec) : Bool := d.e = 0 || d.m % 10 != 0

/-- Strip factors of 10 shared by the mantissa and the fractional length. -/
def normDecAux : Nat → Int → Dec
  | 0, m => ⟨m, 0⟩
  | e + 1, m => if m % 10 = 0 then normDecAux e (m / 10) else ⟨m, e + 1⟩

/-- Normalise a raw mantissa/exponent pair to canonical form. -/
def normDec (m : Int) (e : Nat) : Dec :=
  if m = 0 then ⟨0, 0⟩ else normDecAux e m

/-! ## Digits -/

def digitVal (c : Char) : Nat := c.toNat - 48

def digitChr (d : Nat) : Char := Char.ofNat (48 + d)

/-- Little-endian base-10 digits of `n`; the fuel argument (any value `≥ n`
works) keeps the recursion structural. -/
def natDigitsAux : Nat → Nat → List Nat
  | 0, _ => []
  | fuel + 1, n => if n = 0 then [] else n % 10 :: natDigitsAux fuel (n / 10)

/-- Decimal digit characters of `n`, most significant first (`"0"` for 0):
the digits CPython's `str(int)` prints. -/
def natChars (n : Nat) : List Char :=
  if n = 0 then ['0'] else (natDigitsAux n n).reverse.map digitChr

def natStr (n : Nat) : String := String.mk (natChars n)

/-- `str(int)` for a signed integer. -/
def intChars (n : Int) : List Char :=
  if n < 0 then '-' :: natChars n.natAbs else natChars n.natAbs

def intRepr (n : Int) : String := String.mk (intChars n)

/-- Numeric value of a most-significant-first digit list. -/
def valDigits (ds : List Nat) : Nat := ds.foldl (fun a d => 10 * a + d) 0

/-- Left-pad the decimal digits of `n` with zeros to width `w`. -/
def padChars (w : Nat) (n : Nat) : List Char :=
  List.replicate (w - (natChars n).length) '0' ++ natChars n

/-! ## Python string primitives -/

/-- The ASCII whitespace characters `str.strip()` removes. -/
def isPyWs (c : Char) : Bool :=
  c.toNat = 32 || c.toNat = 9 || c.toNat = 10 || c.toNat = 13 || c.toNat = 11 || c.toNat = 12

/-- `s.strip()` on the character list. -/
def stripChars (cs : List Char) : List Char :=
  ((cs.dropWhile isPyWs).reverse.dropWhile isPyWs).reverse

def pyStrip (s : String) : String := String.mk (stripChars s.toList)

/-- One step of `str.replace(old, new)` for a single-character `old`. -/
def replaceChar (old : Char) (new : List Char) (cs : List Char) : List Char :=
  cs.flatMap fun c => if c = old then new else [c]

/-- `text.replace("Z", "+00:00")` — every occurrence, as in the source. -/
def replaceZ (s : String) : String :=
  String.mk (replaceChar 'Z' ['+', '0', '0', ':', '0', '0'] s.toList)

/-! ## `int(...)` and `float(...)` -/

/-- Optional leading sign; returns (negative?, rest). -/
def parseSign : List Char → Bool × List Char
  | [] => (false, [])
  | c :: rest =>
    if c = '-' then (true, rest)
    else if c = '+' then (false, rest)
    else (false, c :: rest)

/-- All-digit check plus conversion, `none` on any non-digit. -/
def charsDigits : List Char → Option (List Nat)
  | [] => some []
  | c :: cs => if c.isDigit then (charsDigits cs).map (digitVal c :: ·) else none

def intOfSign (neg : Bool) (n : Nat) : Int := if neg then -(n : Int) else (n : Int)

/-- CPython `int(s)`: strip, optional sign, one or more decimal digits. -/
def pyParseInt (s : String) : Option Int :=
  let cs := stripChars s.toList
  let sgn := parseSign cs
  match sgn.2, charsDigits sgn.2 with
  | _ :: _, some ds => some (intOfSign sgn.1 (valDigits ds))
  | _, _ => none

/-- Assemble a parsed float: digit values of the mantissa, the fraction
length, and the explicit exponent give `±mant · 10 ^ (exp − fracLen)`,
normalised. -/
def mkDecOf (neg : Bool) (mantDigits : List Nat) (fracLen : Nat) (exp : Int) : Dec :=
  let m := intOfSign neg (valDigits mantDigits)
  let net : Int := exp - (fracLen : Int)
  if 0 ≤ net then normDec (m * (10 : Int) ^ net.toNat) 0
  else normDec m (-net).toNat

/-- Exponent suffix of a float literal (`e`/`E`, optional sign, digits),
or the end of the string. -/
def parseFloatExp (neg : Bool) (mantDigits : List Nat) (fracLen : Nat) : List Char → Option Dec
  | [] => some (mkDecOf neg mantDigits fracLen 0)
  | c :: rest =>
    if c = 'e' || c = 'E' then
      let sgn := parseSign rest
      match sgn.2, charsDigits sgn.2 with
      | _ :: _, some es => some (mkDecOf neg mantDigits fracLen (intOfSign sgn.1 (valDigits es)))
      | _, _ => none
    else none

/-- Mantissa of a float literal: `digits [. digits]` or `. digits`. -/
def parseFloatBody (neg : Bool) (cs : List Char) : Option Dec :=
  let ip := cs.takeWhile Char.isDigit
  let rest1 := cs.dropWhile Char.isDigit
  match rest1 with
  | '.' :: rest2 =>
    let fp := rest2.takeWhile Char.isDigit
    let rest3 := rest2.dropWhile Char.isDigit
    if ip.isEmpty && fp.isEmpty then none
    else parseFloatExp neg ((ip ++ fp).map digitVal) fp.length rest3
  | _ =>
    if ip.isEmpty then none else parseFloatExp neg (ip.map digitVal) 0 rest1

/-- CPython `float(s)` on decimal literals (`inf`/`nan` not modelled). -/
def pyParseFloat (s : String) : Option Dec :=
  let cs := stripChars s.toList
  let sgn := parseSign cs
  parseFloatBody sgn.1 sgn.2

/-- `str(float)` for the exact-decimal model: positional notation with a
mandatory fractional part (`7 ↦ "7.0"`, `⟨125075, 2⟩ ↦ "1250.75"`). -/
def decChars (d : Dec) : List Char :=
  let sign : List Char := if d.m < 0 then ['-'] else []
  let ds := natChars d.m.natAbs
  if d.e = 0 then sign ++ ds ++ ['.', '0']
  else
    let padded := if ds.length ≤ d.e then List.replicate (d.e + 1 - ds.length) '0' ++ ds else ds
    sign ++ padded.take (padded.length - d.e) ++ '.' :: padded.drop (padded.length - d.e)

def decRepr (d : Dec) : String := String.mk (decChars d)

/-! ## Dates and datetimes (`datetime.date` / `datetime.datetime`) -/

/-- A `datetime.date`: the constructor's validity range is checked by
`validYMD` wherever one is built. -/
structure PyDate where
  year : Nat
  month : Nat
  day : Nat
deriving DecidableEq

def isLeapYear (y : Nat) : Bool := y % 4 = 0 && (y % 100 != 0 || y % 400 = 0)

def daysInMonth (y m : Nat) : Nat :=
  if m = 2 then (if isLeapYear y then 29 else 28)
  else if m = 4 || m = 6 || m = 9 || m = 11 then 30
  else 31

/-- The `datetime.date(y, m, d)` constructor check (MINYEAR = 1,
MAXYEAR = 9999). -/
def validYMD (y m d : Nat) : Bool :=
  1 ≤ y && y ≤ 9999 && 1 ≤ m && m ≤ 12 && 1 ≤ d && d ≤ daysInMonth y m

/-- A `datetime.datetime`: date, time components, and an optional UTC
offset in microseconds (how `timezone(timedelta)` stores it; printing
re-derives hours/minutes by division exactly as CPython does). -/
structure PyDateTime where
  date : PyDate
  hour : Nat
  minute : Nat
  second : Nat
  micro : Nat
  off : Option Int
deriving DecidableEq

/-- Which `PyDateTime`s CPython can actually construct. -/
def pyDateTimeValid (t : PyDateTime) : Bool :=
  validYMD t.date.year t.date.month t.date.day
    && t.hour ≤ 23 && t.minute ≤ 59 && t.second ≤ 59 && t.micro ≤ 999999
    && (match t.off with
        | some o => o.natAbs < 86400000000
        | none => true)

/-- `date.isoformat()`: `YYYY-MM-DD`, zero-padded. -/
def dateIsoChars (d : PyDate) : List Char :=
  padChars 4 d.year ++ '-' :: padChars 2 d.month ++ '-' :: padChars 2 d.day

def dateIso (d : PyDate) : String := String.mk (dateIsoChars d)

/-- CPython's `_format_offset`: `±HH:MM`, plus `:SS` and `.ffffff` when
nonzero. -/
def fmtOffset (off : Int) : List Char :=
  let sign := if off < 0 then '-' else '+'
  let a := off.natAbs
  let us := a % 1000000
  let totalS := a / 1000000
  let hh := totalS / 3600
  let mm := totalS % 3600 / 60
  let ss := totalS % 60
  sign :: padChars 2 hh ++ ':' :: padChars 2 mm ++
    (if ss = 0 && us = 0 then [] else
      ':' :: padChars 2 ss ++ (if us = 0 then [] else '.' :: padChars 6 us))

/-- `datetime.isoformat()`: `YYYY-MM-DDTHH:MM:SS[.ffffff][±HH:MM[...]]`. -/
def isoformatDT (t : PyDateTime) : String :=
  String.mk (dateIsoChars t.date ++ 'T' :: padChars 2 t.hour ++ ':' :: padChars 2 t.minute ++
    ':' :: padChars 2 t.second ++
    (if t.micro = 0 then [] else '.' :: padChars 6 t.micro) ++
    (match t.off with
     | some o => fmtOffset o
     | none => []))

/-- `str(datetime)`: isoformat with a space separator. -/
def strDTChars (t : PyDateTime) : List Char :=
  dateIsoChars t.date ++ ' ' :: padChars 2 t.hour ++ ':' :: padChars 2 t.minute ++
    ':' :: padChars 2 t.second ++
    (if t.micro = 0 then [] else '.' :: padChars 6 t.micro) ++
    (match t.off with
     | some o => fmtOffset o
     | none => [])

/-- Two mandatory digit characters. -/
def parse2 : List Char → Option (Nat × List Char)
  | a :: b :: rest =>
    if a.isDigit && b.isDigit then some (10 * digitVal a + digitVal b, rest) else none
  | _ => none

/-- CPython ≤ 3.10 `_parse_isoformat_date`: a rigid ten-character
`YYYY-MM-DD`, validated by the `date` constructor. -/
def parseIsoDate : List Char → Option PyDate
  | [a, b, c, d, h1, e, f, h2, g, k] =>
    if a.isDigit && b.isDigit && c.isDigit && d.isDigit && h1 = '-'
        && e.isDigit && f.isDigit && h2 = '-' && g.isDigit && k.isDigit then
      let y := valDigits [digitVal a, digitVal b, digitVal c, digitVal d]
      let mo := 10 * digitVal e + digitVal f
      let dy := 10 * digitVal g + digitVal k
      if validYMD y mo dy then some ⟨y, mo, dy⟩ else none
    else none
  | _ => none

/-- CPython ≤ 3.10 `_parse_hh_mm_ss_ff`: `HH[:MM[:SS[.fff[fff]]]]`, with
the fraction exactly 3 or 6 digits. -/
def parseHMSF (cs : List Char) : Option (Nat × Nat × Nat × Nat) :=
  match parse2 cs with
  | none => none
  | some (h, rest) =>
    match rest with
    | [] => some (h, 0, 0, 0)
    | ':' :: rest2 =>
      match parse2 rest2 with
      | none => none
      | some (m, rest3) =>
        match rest3 with
        | [] => some (h, m, 0, 0)
        | ':' :: rest4 =>
          match parse2 rest4 with
          | none => none
          | some (s, rest5) =>
            match rest5 with
            | [] => some (h, m, s, 0)
            | '.' :: fr =>
              match charsDigits fr with
              | some ds =>
                if ds.length = 3 then some (h, m, s, 1000 * valDigits ds)
                else if ds.length = 6 then some (h, m, s, valDigits ds)
                else none
              | none => none
            | _ => none
        | _ => none
    | _ => none

/-- CPython ≤ 3.10 `_parse_isoformat_time`: the offset starts at the first
`-` of the time string (else the first `+`); the offset substring must be
5, 8 or 15 characters; the components feed `time(...)` / `timezone(...)`
range checks. -/
def parseIsoTime (d : PyDate) (tstr : List Char) : Option PyDateTime :=
  let tzIdx : Option Nat :=
    match tstr.findIdx? (· = '-') with
    | some i => some i
    | none => tstr.findIdx? (· = '+')
  let timestr := match tzIdx with
    | some i => tstr.take i
    | none => tstr
  match parseHMSF timestr with
  | none => none
  | some (h, m, s, us) =>
    if h ≤ 23 && m ≤ 59 && s ≤ 59 then
      match tzIdx with
      | none => some ⟨d, h, m, s, us, none⟩
      | some i =>
        let tzstr := tstr.drop (i + 1)
        if tzstr.length = 5 || tzstr.length = 8 || tzstr.length = 15 then
          match parseHMSF tzstr with
          | none => none
          | some (th, tm, ts, tus) =>
            let off : Int :=
              intOfSign (tstr.getD i ' ' = '-') ((th * 3600 + tm * 60 + ts) * 1000000 + tus)
            if off.natAbs < 86400000000 then some ⟨d, h, m, s, us, some off⟩ else none
        else none
    else none

/-- CPython ≤ 3.10 `datetime.fromisoformat`: ten date characters, an
arbitrary separator character (ignored), then the optional time string. -/
def fromisoformatDT (s : String) : Option PyDateTime :=
  let cs := s.toList
  match parseIsoDate (cs.take 10) with
  | none => none
  | some d =>
    match cs.drop 10 with
    | [] => some ⟨d, 0, 0, 0, 0, none⟩
    | _ :: tstr =>
      if tstr.isEmpty then some ⟨d, 0, 0, 0, 0, none⟩
      else parseIsoTime d tstr

/-! ## `strptime` with the three formats of the source

CPython compiles each directive to a regex: `%Y ↦ \d\d\d\d`,
`%m ↦ 1[0-2]|0[1-9]|[1-9]`, `%d ↦ 3[01]|[12]\d|0[1-9]|[1-9]`; the whole
pattern must consume the entire string, and the matched numbers then pass
through the `date` constructor. -/

/-- The `%Y` directive: exactly four digits. -/
def matchYear4 : List Char → Option (Nat × List Char)
  | a :: b :: c :: d :: rest =>
    if a.isDigit && b.isDigit && c.isDigit && d.isDigit then
      some (valDigits [digitVal a, digitVal b, digitVal c, digitVal d], rest)
    else none
  | _ => none

/-- The `%m` directive (regex `1[0-2]|0[1-9]|[1-9]`, alternatives in
order). -/
def matchMonth : List Char → Option (Nat × List Char)
  | [] => none
  | a :: rest =>
    if a = '1' then
      match rest with
      | b :: rest2 => if '0' ≤ b && b ≤ '2' then some (10 + digitVal b, rest2) else some (1, rest)
      | [] => some (1, [])
    else if a = '0' then
      match rest with
      | b :: rest2 => if '1' ≤ b && b ≤ '9' then some (digitVal b, rest2) else none
      | [] => none
    else if '2' ≤ a && a ≤ '9' then some (digitVal a, rest)
    else none

/-- The `%d` directive (regex `3[01]|[12]\d|0[1-9]|[1-9]`, alternatives in
order). -/
def matchDay : List Char → Option (Nat × List Char)
  | [] => none
  | a :: rest =>
    if a = '3' then
      match rest with
      | b :: rest2 => if b = '0' || b = '1' then some (30 + digitVal b, rest2) else some (3, rest)
      | [] => some (3, [])
    else if a = '1' || a = '2' then
      match rest with
      | b :: rest2 => if b.isDigit then some (10 * digitVal a + digitVal b, rest2) else some (digitVal a, rest)
      | [] => some (digitVal a, [])
    else if a = '0' then
      match rest with
      | b :: rest2 => if '1' ≤ b && b ≤ '9' then some (digitVal b, rest2) else none
      | [] => none
    else if '4' ≤ a && a ≤ '9' then some (digitVal a, rest)
    else none

/-- A literal character of the format string. -/
def matchLit (c : Char) : List Char → Option (List Char)
  | a :: rest => if a = c then some rest else none
  | [] => none

/-- `strptime(text, "%Y-%m-%d").date()`. -/
def strptimeYmd (s : String) : Option PyDate :=
  match matchYear4 s.toList with
  | none => none
  | some (y, r1) =>
    match matchLit '-' r1 with
    | none => none
    | some r2 =>
      match matchMonth r2 with
      | none => none
      | some (mo, r3) =>
        match matchLit '-' r3 with
        | none => none
        | some r4 =>
          match matchDay r4 with
          | some (dy, []) => if validYMD y mo dy then some ⟨y, mo, dy⟩ else none
          | _ => none

/-- `strptime(text, "%d/%m/%Y").date()`. -/
def strptimeDmy (s : String) : Option PyDate :=
  match matchDay s.toList with
  | none => none
  | some (dy, r1) =>
    match matchLit '/' r1 with
    | none => none
    | some r2 =>
      match matchMonth r2 with
      | none => none
      | some (mo, r3) =>
        match matchLit '/' r3 with
        | none => none
        | some r4 =>
          match matchYear4 r4 with
          | some (y, []) => if validYMD y mo dy then some ⟨y, mo, dy⟩ else none
          | _ => none

/-- `strptime(text, "%m/%d/%Y").date()`. -/
def strptimeMdy (s : String) : Option PyDate :=
  match matchMonth s.toList with
  | none => none
  | some (mo, r1) =>
    match matchLit '/' r1 with
    | none => none
    | some r2 =>
      match matchDay r2 with
      | none => none
      | some (dy, r3) =>
        match matchLit '/' r3 with
        | none => none
        | some r4 =>
          match matchYear4 r4 with
          | some (y, []) => if validYMD y mo dy then some ⟨y, mo, dy⟩ else none
          | _ => none

/-! ## The model of Python values reaching the validator

Payloads come from `request.get_json`, so cell values are JSON scalars and
containers; `datetime` appears as a constructor because `_coerce_value`
tests `isinstance(value, datetime)`.  Lists and dicts are separate mutual
inductives (rather than nested `List` arguments) so that equality stays
derivable and every function stays structurally recursive; `PVList.toList` /
`PVDict.toList` mediate.  Python dict keys are unique (duplicate JSON keys
collapse before the validator runs), so lookup takes the first match. -/

mutual

inductive PyVal where
  | none
  | bool (b : Bool)
  | int (n : Int)
  | float (d : Dec)
  | str (s : String)
  | datetime (t : PyDateTime)
  | list (xs : PVList)
  | dict (kvs : PVDict)
deriving DecidableEq

inductive PVList where
  | nil
  | cons (v : PyVal) (rest : PVList)
deriving DecidableEq

inductive PVDict where
  | nil
  | cons (k : String) (v : PyVal) (rest : PVDict)
deriving DecidableEq

end

def PVList.toList : PVList → List PyVal
  | .nil => []
  | .cons v rest => v :: rest.toList

def PVList.ofList : List PyVal → PVList
  | [] => .nil
  | v :: rest => .cons v (PVList.ofList rest)

def PVDict.toList : PVDict → List (String × PyVal)
  | .nil => []
  | .cons k v rest => (k, v) :: rest.toList

def PVDict.ofList : List (String × PyVal) → PVDict
  | [] => .nil
  | (k, v) :: rest => .cons k v (PVDict.ofList rest)

/-- `d.get(key)` (`None` when absent). -/
def pyGet : PVDict → String → PyVal
  | .nil, _ => .none
  | .cons k v rest, key => if k = key then v else pyGet rest key

/-! `str(value)` and `repr(value)`.  Containers render their elements with
`repr`; `repr` of strings/datetimes is approximated (no escape sequences,
no field elision), which no claim observes — only the shape of `str` on
scalars matters downstream. -/

mutual

def pyStr : PyVal → String
  | .none => "None"
  | .bool b => if b then "True" else "False"
  | .int n => intRepr n
  | .float d => decRepr d
  | .str s => s
  | .datetime t => String.mk (strDTChars t)
  | .list xs => "[" ++ pyReprSeq xs ++ "]"
  | .dict kvs => "\x7b" ++ pyReprDictSeq kvs ++ "\x7d"

def pyRepr : PyVal → String
  | .none => "None"
  | .bool b => if b then "True" else "False"
  | .int n => intRepr n
  | .float d => decRepr d
  | .str s => "'" ++ s ++ "'"
  | .datetime t => "datetime.datetime(" ++ natStr t.date.year ++ ", " ++ natStr t.date.month
      ++ ", " ++ natStr t.date.day ++ ", " ++ natStr t.hour ++ ", " ++ natStr t.minute ++ ")"
  | .list xs => "[" ++ pyReprSeq xs ++ "]"
  | .dict kvs => "\x7b" ++ pyReprDictSeq kvs ++ "\x7d"

def pyReprSeq : PVList → String
  | .nil => ""
  | .cons v .nil => pyRepr v
  | .cons v rest => pyRepr v ++ ", " ++ pyReprSeq rest

def pyReprDictSeq : PVDict → String
  | .nil => ""
  | .cons k v .nil => "'" ++ k ++ "': " ++ pyRepr v
  | .cons k v rest => "'" ++ k ++ "': " ++ pyRepr v ++ ", " ++ pyReprDictSeq rest

end

/-- Python truthiness for the values above. -/
def pyTruthy : PyVal → Bool
  | .none => false
  | .bool b => b
  | .int n => n != 0
  | .float d => d.m != 0
  | .str s => !s.isEmpty
  | .datetime _ => true
  | .list xs => !(xs.toList.isEmpty)
  | .dict kvs => !(kvs.toList.isEmpty)

/-! ## The schema validator and sanitizer (`Backend/app.py`) -/

/-- `_is_blank`. -/
def _is_blank : PyVal → Bool
  | .none => true
  | .str s => (stripChars s.toList).isEmpty
  | _ => false

/-- `_sanitize_string`: `str(value).strip()`, CR/LF to spaces, truncate. -/
def _sanitize_string (value : PyVal) (maxLength : Nat := 255) : String :=
  match value with
  | .none => ""
  | v =>
    String.mk ((((stripChars (pyStr v).toList).map
      (fun c => if c = '\r' then ' ' else c)).map
      (fun c => if c = '\n' then ' ' else c)).take maxLength)

/-- Column value types of `UPLOAD_SCHEMA`. -/
inductive FieldType where
  | int
  | float
  | str
  | date
deriving DecidableEq

/-- One `UPLOAD_SCHEMA` entry (`ty` is the Python `"type"` key; the
human-readable `"description"` is dropped). -/
structure UploadColumn where
  key : String
  ty : FieldType
  required : Bool
deriving DecidableEq

def UPLOAD_SCHEMA : List UploadColumn :=
  [⟨"Invoice", .int, true⟩,
   ⟨"CustomerID", .int, true⟩,
   ⟨"CustomerName", .str, true⟩,
   ⟨"Amount", .float, true⟩,
   ⟨"Currency", .str, true⟩,
   ⟨"InvoiceDate", .date, true⟩,
   ⟨"Status", .str, true⟩]

def UPLOAD_EXPECTED_COLUMNS : List String := UPLOAD_SCHEMA.map (·.key)

/-- Default of the `MAX_UPLOAD_ROWS` environment knob. -/
def MAX_UPLOAD_ROWS : Nat := 5000

/-- `_coerce_value`: returns the sanitized value or the `ValueError`
message. -/
def _coerce_value (value : PyVal) (expectedType : FieldType) (columnLabel : String)
    (rowIndex : Nat) : Except String PyVal :=
  match expectedType with
  | .int =>
    match pyParseInt (pyStrip (pyStr value)) with
    | some n => .ok (.int n)
    | none => .error ("Row " ++ natStr rowIndex ++ ": '" ++ columnLabel ++ "' must be an integer.")
  | .float =>
    match pyParseFloat (pyStrip (pyStr value)) with
    | some d => .ok (.float d)
    | none => .error ("Row " ++ natStr rowIndex ++ ": '" ++ columnLabel ++ "' must be a number.")
  | .date =>
    match value with
    | .datetime t => .ok (.str (dateIso t.date))
    | _ =>
      let text := _sanitize_string value
      let normalized := replaceZ text
      match fromisoformatDT normalized with
      | some t => .ok (.str (dateIso t.date))
      | none =>
        match fromisoformatDT text with
        | some t => .ok (.str (dateIso t.date))
        | none =>
          match strptimeYmd text with
          | some d => .ok (.str (dateIso d))
          | none =>
            match strptimeDmy text with
            | some d => .ok (.str (dateIso d))
            | none =>
              match strptimeMdy text with
              | some d => .ok (.str (dateIso d))
              | none =>
                .error ("Row " ++ natStr rowIndex ++ ": '" ++ columnLabel
                  ++ "' must be a valid date (YYYY-MM-DD).")
  | .str => .ok (.str (_sanitize_string value))

/-- The per-column body of `_validate_row`'s loop: the sanitized entries
(zero or one) and the errors (zero or one) this column contributes. -/
def rowFieldPiece (kvs : PVDict) (rowIndex : Nat) (column : UploadColumn) :
    List (String × PyVal) × List String :=
  let raw := pyGet kvs column.key
  if _is_blank raw then
    ([(column.key, .str "")], if column.required then ["Row " ++ natStr rowIndex ++ ": '" ++ column.key ++ "' is required."] else [])
  else
    match _coerce_value raw column.ty column.key rowIndex with
    | .ok v => ([(column.key, v)], [])
    | .error e => ([], [e])

/-- `_validate_row`: the sanitized row (insertion order = schema order;
a key whose coercion failed is absent) and the accumulated errors. -/
def _validate_row (row : PyVal) (rowIndex : Nat) : List (String × PyVal) × List String :=
  match row with
  | .dict kvs =>
    (((UPLOAD_SCHEMA.map (rowFieldPiece kvs rowIndex)).map (·.1)).flatten,
     ((UPLOAD_SCHEMA.map (rowFieldPiece kvs rowIndex)).map (·.2)).flatten)
  | _ => ([], ["Row " ++ natStr rowIndex ++ ": must be an object with the expected columns."])

/-- The sanitized metadata object. -/
structure SanitizedMeta where
  originalFilename : String
  uploadTime : String
  warnings : List String
  serverReceivedAt : String
  rowCount : Nat
deriving DecidableEq

/-- `_sanitize_meta`.  The two `datetime.utcnow().isoformat()` reads are
the parameters `nowUpload` (the default upload time) and `nowRecv` (the
server-received stamp). -/
def _sanitize_meta (metaRaw : PyVal) (rowCount : Nat) (nowUpload nowRecv : String) :
    Except (List String) SanitizedMeta :=
  let mr : PVDict := match metaRaw with
    | .dict kvs => kvs
    | _ => .nil
  let ofn := _sanitize_string (pyGet mr "originalFilename")
  let originalFilename := if ofn = "" then "unknown.xlsx" else ofn
  let utRaw := pyGet mr "uploadTime"
  let uploadTimeE : Except (List String) String :=
    if pyTruthy utRaw then
      match fromisoformatDT (replaceZ (_sanitize_string utRaw)) with
      | some t => .ok (isoformatDT t)
      | none => .error ["meta.uploadTime must be ISO-8601 formatted."]
    else .ok nowUpload
  match uploadTimeE with
  | .error es => .error es
  | .ok uploadTime =>
    let warnings : List String :=
      match pyGet mr "warnings" with
      | .list xs => (xs.toList.map (fun w => _sanitize_string w)).filter (fun t => !t.isEmpty)
      | _ => []
    .ok ⟨originalFilename, uploadTime, warnings, nowRecv, rowCount⟩

/-- Python `columns == UPLOAD_EXPECTED_COLUMNS`: true only for a list
whose elements are exactly those strings in order. -/
def strListIs : PVList → List String → Bool
  | .nil, [] => true
  | .cons (.str s) rest, e :: es => s = e && strListIs rest es
  | _, _ => false

def columnsMatch : PyVal → Bool
  | .list xs => strListIs xs UPLOAD_EXPECTED_COLUMNS
  | _ => false

/-- `enumerate(data, start=1)`. -/
def enumFrom1 : Nat → List PyVal → List (Nat × PyVal)
  | _, [] => []
  | i, a :: as => (i, a) :: enumFrom1 (i + 1) as

/-- The validator's successful result. -/
structure ValidatedUpload where
  rows : List (List (String × PyVal))
  columns : List String
  meta : SanitizedMeta
deriving DecidableEq

/-- The per-row results of the validation loop, `enumerate(data, start=1)`
order. -/
def validateResults (data : List PyVal) : List (List (String × PyVal) × List String) :=
  (enumFrom1 1 data).map fun p => _validate_row p.2 p.1

/-- `row_errors`: every row's errors, concatenated in row order. -/
def collectRowErrors (data : List PyVal) : List String :=
  ((validateResults data).map (·.2)).flatten

/-- `sanitized_rows`: the sanitized dicts of the rows with no errors, in
order. -/
def sanitizedKept (data : List PyVal) : List (List (String × PyVal)) :=
  ((validateResults data).filter fun r => r.2.isEmpty).map (·.1)

/-- `_validate_upload_payload`; `.error` is the `UploadValidationError`
list.  The loop's two accumulators are the named definitions above. -/
def _validate_upload_payload (payload : PyVal) (nowUpload nowRecv : String) :
    Except (List String) ValidatedUpload :=
  match payload with
  | .dict kvs =>
    if !columnsMatch (pyGet kvs "columns") then
      .error ["Columns must exactly match: " ++ String.intercalate ", " UPLOAD_EXPECTED_COLUMNS]
    else
      match pyGet kvs "data" with
      | .list xsPV =>
        let data := xsPV.toList
        if data.isEmpty then .error ["'data' must be a non-empty array of rows."]
        else if MAX_UPLOAD_ROWS < data.length then
          .error ["A maximum of " ++ natStr MAX_UPLOAD_ROWS ++ " rows is allowed per upload."]
        else if (collectRowErrors data).isEmpty then
          match _sanitize_meta (pyGet kvs "meta") (sanitizedKept data).length nowUpload nowRecv with
          | .error es => .error es
          | .ok meta => .ok ⟨sanitizedKept data, UPLOAD_EXPECTED_COLUMNS, meta⟩
        else .error (collectRowErrors data)
      | _ => .error ["'data' must be a non-empty array of rows."]
  | _ => .error ["Payload must be a JSON object."]

/-! ## The ingest route (`/api/uploads/ingest`), after rate limiting and
JSON decoding -/

/-- Observable outcome of the handler body from validation on. -/
inductive IngestOutcome where
  | response (status : Nat) (success : Bool) (errors : List String)
  | crash (exc : String)
  | created (uploadId : String) (rowCount : Nat)
      (preview : List (List (String × PyVal))) (meta : SanitizedMeta)
deriving DecidableEq

/-- `ingest_upload` from the `_validate_upload_payload` call on, paired
with the list of batches handed to the Store.  The code between
validation and persistence reads the module-level names
`_init_upload_storage` (line 752) and `UploadStorageError` (line 758),
and neither is defined anywhere in the repository, so on the success path
CPython raises `NameError` before `_persist_upload` can run: no
persistence call is ever made and neither the storage-error response nor
the 201 response is reachable. -/
def ingest_upload (payload : PyVal) (nowUpload nowRecv : String) :
    IngestOutcome × List ValidatedUpload :=
  match _validate_upload_payload payload nowUpload nowRecv with
  | .error errs => (.response 422 false errs, [])
  | .ok _ => (.crash "NameError: name '_init_upload_storage' is not defined", [])

/-! ## The sliding-window rate limiter (`_enforce_rate_limit`)

Timestamps are integers (microseconds, say: only their order and
differences matter).  The deque for one `(bucket, client)` key is a list,
oldest first; the boolean is `true` when the check admits, `false` for
the `UploadRateLimitError`.  The trimmed history persists either way —
the deque is mutated in place. -/

def _enforce_rate_limit (limit : Nat) (window : Int) (history : List Int) (now : Int) :
    List Int × Bool :=
  let trimmed := history.dropWhile fun t => decide (t < now - window)
  if limit ≤ trimmed.length then (trimmed, false) else (trimmed ++ [now], true)

/-- Run successive admission checks at the given instants, returning the
final history and each check's verdict. -/
def runRateChecks (limit : Nat) (window : Int) : List Int → List Int → List Int × List Bool
  | h, [] => (h, [])
  | h, t :: ts =>
    let r := _enforce_rate_limit limit window h t
    let rest := runRateChecks limit window r.1 ts
    (rest.1, r.2 :: rest.2)

/-! ## The Merkle digest builder (`compute_merkle_root`)

The 256-bit hash is abstracted as `H : String → String` (mapping the
hashed text to its hex digest); every structural property of the builder
holds for any `H`.  A record's fields hold the `str(...)` renderings of
the five pandas columns, which is all `compute_merkle_root` reads. -/

structure TxnRecord where
  InvoiceDate : String
  CustomerID : String
  Quantity : String
  UnitPrice : String
  TotalAmount : String
deriving DecidableEq

/-- A leaf: the hash of the pipe-joined field strings. -/
def merkleLeaf (H : String → String) (r : TxnRecord) : String :=
  H (String.intercalate "|" [r.InvoiceDate, r.CustomerID, r.Quantity, r.UnitPrice, r.TotalAmount])

/-- One iteration of the `while` body: duplicate the last node when the
count is odd (the singleton case pairs it with itself), then hash
adjacent pairs — parents hash the *concatenated hex strings*. -/
def merklePair (H : String → String) : List String → List String
  | [] => []
  | [a] => [H (a ++ a)]
  | a :: b :: rest => H (a ++ b) :: merklePair H rest

/-- The `while len(nodes) > 1` loop; the fuel (the starting node count
bounds the iteration count, since every level shrinks) keeps it
structural. -/
def merkleLevels (H : String → String) : Nat → List String → List String
  | 0, ns => ns
  | fuel + 1, ns => if ns.length ≤ 1 then ns else merkleLevels H fuel (merklePair H ns)

/-- `compute_merkle_root`. -/
def compute_merkle_root (H : String → String) (records : List TxnRecord) : String :=
  let leaves := records.map (merkleLeaf H)
  if leaves.isEmpty then "" else (merkleLevels H leaves.length leaves).headD ""

/-- Specification-side pairing: hash adjacent pairs of an even-length
level, no duplication.  Used to state the odd-node rule. -/
def pairAdjacent (H : String → String) : List String → List String
  | a :: b :: rest => H (a ++ b) :: pairAdjacent H rest
  | _ => []

/-! ## The RFM segmentation engine (`build_rfm_segments`)

`InvoiceDate` is a rational number of days, `TotalAmount` a rational:
`np.percentile` interpolation and the threshold comparisons are exact
rational arithmetic here, where pandas uses binary floats.  `recency` is
`(now - max).days`, i.e. the floor of the day difference. -/

structure RfmTxn where
  customerId : Int
  invoiceDate : ℚ
  totalAmount : ℚ
deriving DecidableEq

structure RfmBase where
  customerId : Int
  recency : Int
  frequency : Nat
  monetary : ℚ
deriving DecidableEq

structure CustomerRFM where
  customerId : Int
  recency : Int
  frequency : Nat
  monetary : ℚ
  segment : String
  offer : Option String
deriving DecidableEq

def SEGMENT_OFFERS : List (String × String) :=
  [("Top Spenders", "VIP 15% Discount"),
   ("Loyal Customers", "Early Access Deals"),
   ("At Risk Customers", "10% Comeback Coupon"),
   ("New Customers", "Welcome Offer"),
   ("Low Value Customers", "Bundle Discount")]

def offerFor (segment : String) : Option String :=
  (SEGMENT_OFFERS.find? fun p => p.1 = segment).map (·.2)

/-- `np.percentile(xs, p)` with the default linear interpolation:
position `(n−1)·p/100` into the ascending sort.  (numpy raises on an
empty array; the `0` branch is unreachable from `build_rfm_segments`,
which returns early on an empty frame.) -/
def np_percentile (xs : List ℚ) (p : ℚ) : ℚ :=
  let s := List.insertionSort (· ≤ ·) xs
  if s.length = 0 then 0
  else
    let pos := ((s.length : ℚ) - 1) * p / 100
    let i := (ratFloor pos).toNat
    let lo := s.getD i 0
    let hi := s.getD (i + 1) lo
    lo + (pos - ratFloor pos) * (hi - lo)

/-- The distinct customer ids, ascending (`pandas.groupby` sorts keys). -/
def rfmCustomerIds (txs : List RfmTxn) : List Int :=
  List.insertionSort (· ≤ ·) (txs.map (·.customerId)).dedup

def qMax (xs : List ℚ) : ℚ := xs.foldl max (xs.headD 0)

/-- The grouped frame: recency / frequency / monetary per customer. -/
def rfmGrouped (txs : List RfmTxn) (now : ℚ) : List RfmBase :=
  (rfmCustomerIds txs).map fun k =>
    let g := txs.filter fun t => decide (t.customerId = k)
    ⟨k, ratFloor (now - qMax (g.map (·.invoiceDate))), g.length, (g.map (·.totalAmount)).sum⟩

/-- `assign_segment`, first match wins. -/
def assign_segment (recencyLow recencyHigh freqHigh freqLow monetaryHigh monetaryLow : ℚ)
    (row : RfmBase) : String :=
  if monetaryHigh ≤ row.monetary then "Top Spenders"
  else if freqHigh ≤ (row.frequency : ℚ) ∧ (row.recency : ℚ) ≤ recencyHigh then "Loyal Customers"
  else if recencyHigh ≤ (row.recency : ℚ) then "At Risk Customers"
  else if (row.recency : ℚ) ≤ recencyLow ∧ (row.frequency : ℚ) ≤ freqLow then "New Customers"
  else if row.monetary ≤ monetaryLow then "Low Value Customers"
  else "Loyal Customers"

instance decMonetaryGE : DecidableRel (fun a b : CustomerRFM => b.monetary ≤ a.monetary) :=
  fun a b => inferInstanceAs (Decidable (b.monetary ≤ a.monetary))

/-- Attach segment and offer to one grouped row. -/
def rfmEnrich (recencyLow recencyHigh freqHigh freqLow monetaryHigh monetaryLow : ℚ)
    (r : RfmBase) : CustomerRFM :=
  let seg := assign_segment recencyLow recencyHigh freqHigh freqLow monetaryHigh monetaryLow r
  CustomerRFM.mk r.customerId r.recency r.frequency r.monetary seg (offerFor seg)

/-- The six percentile thresholds, recomputed from the grouped frame. -/
def monetaryHighOf (grouped : List RfmBase) : ℚ := np_percentile (grouped.map (·.monetary)) 80

/-- The enriched (pre-sort) customer rows with their thresholds applied. -/
def rfmEnriched (txs : List RfmTxn) (now : ℚ) : List CustomerRFM :=
  (rfmGrouped txs now).map
    (rfmEnrich
      (np_percentile ((rfmGrouped txs now).map fun r => (r.recency : ℚ)) 30)
      (np_percentile ((rfmGrouped txs now).map fun r => (r.recency : ℚ)) 70)
      (np_percentile ((rfmGrouped txs now).map fun r => (r.frequency : ℚ)) 80)
      (np_percentile ((rfmGrouped txs now).map fun r => (r.frequency : ℚ)) 30)
      (monetaryHighOf (rfmGrouped txs now))
      (np_percentile ((rfmGrouped txs now).map (·.monetary)) 35))

/-- `build_rfm_segments`: the `customers` output (sorted descending by
monetary; the summary aggregation is not modelled). -/
def build_rfm_segments (txs : List RfmTxn) (now : ℚ) : List CustomerRFM :=
  if txs.isEmpty then []
  else List.insertionSort (fun a b => b.monetary ≤ a.monetary) (rfmEnriched txs now)

/-! ## Statement-support definitions -/

/-- The `columns` value a well-formed payload carries. -/
def uploadColumnsVal : PyVal := .list (PVList.ofList (UPLOAD_EXPECTED_COLUMNS.map PyVal.str))

/-- Assemble an ingest payload object from its three fields. -/
def mkIngestPayload (cols dataVal meta : PyVal) : PyVal :=
  .dict (.cons "columns" cols (.cons "data" dataVal (.cons "meta" meta .nil)))

/-- The sanitized rows of an error-free batch, in order. -/
def sanitizedRowsOf (rows : List PyVal) : List (List (String × PyVal)) :=
  (enumFrom1 1 rows).map fun p => (_validate_row p.2 p.1).1

/-- Drop the keys that are not in the upload schema. -/
def filterSchemaKeys : PVDict → PVDict
  | .nil => .nil
  | .cons k v rest =>
    if k ∈ UPLOAD_EXPECTED_COLUMNS then .cons k v (filterSchemaKeys rest)
    else filterSchemaKeys rest

/-- Every string-valued cell of a sanitized row is non-empty and a fixed
point of the string sanitizer (no leading/trailing whitespace — only
truncation at the 255 limit can break this). -/
def strCellsSanitized (row : List (String × PyVal)) : Bool :=
  row.all fun kv =>
    match kv.2 with
    | .str s => _sanitize_string (.str s) == s && !s.isEmpty
    | _ => true

/-- Every `datetime` object among a row's cells is one CPython could have
constructed (the Lean `PyDateTime` type is wider than `datetime`). -/
def rowDatetimeCellsValid : PyVal → Bool
  | .dict kvs => kvs.toList.all fun kv =>
      match kv.2 with
      | .datetime t => pyDateTimeValid t
      | _ => true
  | _ => true

/-- Turn a sanitized row back into the payload value a client would
resubmit. -/
def rowToPyVal (row : List (String × PyVal)) : PyVal := .dict (PVDict.ofList row)

/-- The spec's §8 sample row as a JSON payload row. -/
def adaRow : PyVal := .dict (PVDict.ofList
  [("Invoice", .int 123456), ("CustomerID", .int 7890), ("CustomerName", .str "Ada Lovelace"),
   ("Amount", .float ⟨125075, 2⟩), ("Currency", .str "USD"), ("InvoiceDate", .str "2024-01-01"),
   ("Status", .str "Paid")])

/-- A complete, valid ingest payload (the §8 scenario). -/
def adaPayload : PyVal :=
  mkIngestPayload uploadColumnsVal (.list (PVList.ofList [adaRow])) .none

/-- A 256-character `CustomerName` whose 255-truncation ends in a space:
254 `x`s, a space, then `y`. -/
def longName : String := String.mk (List.replicate 254 'x' ++ [' ', 'y'])

/-- A row with three field errors (bad int, bad date, blank required). -/
def badRow : PyVal := .dict (PVDict.ofList
  [("Invoice", .str "abc"), ("CustomerID", .int 7890), ("CustomerName", .str "Ada"),
   ("Amount", .float ⟨125075, 2⟩), ("Currency", .str "USD"), ("InvoiceDate", .str "2024-13-45"),
   ("Status", .str "")])

/-- The §8 scenario row whose only flaw is `InvoiceDate = "2024-13-45"`. -/
def dateBadRow : PyVal := .dict (PVDict.ofList
  [("Invoice", .int 123456), ("CustomerID", .int 7890), ("CustomerName", .str "Ada Lovelace"),
   ("Amount", .float ⟨125075, 2⟩), ("Currency", .str "USD"), ("InvoiceDate", .str "2024-13-45"),
   ("Status", .str "Paid")])

/-- A two-row batch in which both rows fail, in different ways. -/
def badBatch : PVList := PVList.ofList [badRow, .str "nope"]

/-- The §8 row with `longName` as the customer name. -/
def longNameRow : PyVal := .dict (PVDict.ofList
  [("Invoice", .int 123456), ("CustomerID", .int 7890), ("CustomerName", .str longName),
   ("Amount", .float ⟨125075, 2⟩), ("Currency", .str "USD"), ("InvoiceDate", .str "2024-01-01"),
   ("Status", .str "Paid")])

def longNamePayload : PyVal :=
  mkIngestPayload uploadColumnsVal (.list (PVList.ofList [longNameRow])) .none

/-- What the first validation pass makes of `longNameRow`: the name is
truncated to 254 `x`s plus a trailing space. -/
def longNameSanitizedRow : List (String × PyVal) :=
  [("Invoice", .int 123456), ("CustomerID", .int 7890),
   ("CustomerName", .str (String.mk (List.replicate 254 'x' ++ [' ']))),
   ("Amount", .float ⟨125075, 2⟩), ("Currency", .str "USD"), ("InvoiceDate", .str "2024-01-01"),
   ("Status", .str "Paid")]

/-- `longNameSanitizedRow`, resubmitted as a payload. -/
def longNameSecondPayload : PyVal :=
  mkIngestPayload uploadColumnsVal (.list (PVList.ofList [rowToPyVal longNameSanitizedRow])) .none

/-- Decidable equality for the validator result, for concrete-scenario
checks. -/
instance {e a : Type} [DecidableEq e] [DecidableEq a] : DecidableEq (Except e a) := fun x y =>
  match x, y with
  | .error v, .error w =>
    if h : v = w then .isTrue (by rw [h]) else .isFalse (fun he => h (by injection he))
  | .ok v, .ok w =>
    if h : v = w then .isTrue (by rw [h]) else .isFalse (fun he => h (by injection he))
  | .error _, .ok _ => .isFalse (fun he => Except.noConfusion he)
  | .ok _, .error _ => .isFalse (fun he => Except.noConfusion he)

/-- What the first validation pass makes of the spec §8 sample row. -/
def adaSanitizedRow : List (String × PyVal) :=
  [("Invoice", .int 123456), ("CustomerID", .int 7890), ("CustomerName", .str "Ada Lovelace"),
   ("Amount", .float ⟨125075, 2⟩), ("Currency", .str "USD"), ("InvoiceDate", .str "2024-01-01"),
   ("Status", .str "Paid")]

/-- What a second validation pass makes of `longNameSanitizedRow`: the
trailing space left by truncation is stripped away. -/
def longNameTwiceRow : List (String × PyVal) :=
  [("Invoice", .int 123456), ("CustomerID", .int 7890),
   ("CustomerName", .str (String.mk (List.replicate 254 'x'))),
   ("Amount", .float ⟨125075, 2⟩), ("Currency", .str "USD"), ("InvoiceDate", .str "2024-01-01"),
   ("Status", .str "Paid")]

/-! # Theorems -/

/-! ## Merkle digest builder (C1) -/

theorem getLastD_of_ne_nil {l : List String} (h : l ≠ []) (x y : String) :
    l.getLastD x = l.getLastD y := by
  cases l with
  | nil => exact absurd rfl h
  | cons a t =>
    have hs : (a :: t).getLast?.isSome := List.getLast?_isSome.mpr (by simp)
    obtain ⟨v, hv⟩ := Option.isSome_iff_exists.mp hs
    simp [List.getLastD_eq_getLast?, hv]

theorem merklePair_even (H : String → String) :
    ∀ ns : List String, ns.length % 2 = 0 → merklePair H ns = pairAdjacent H ns
  | [], _ => rfl
  | [a], h => by simp at h
  | a :: b :: rest, h => by
    have hr : rest.length % 2 = 0 := by
      have : rest.length + 2 = (a :: b :: rest).length := by simp
      omega
    simp [merklePair, pairAdjacent, merklePair_even H rest hr]

theorem merklePair_odd (H : String → String) :
    ∀ ns : List String, ns.length % 2 = 1 →
      merklePair H ns = pairAdjacent H (ns ++ [ns.getLastD ""])
  | [], h => by simp at h
  | [a], _ => by simp [merklePair, pairAdjacent]
  | a :: b :: rest, h => by
    have hr : rest.length % 2 = 1 := by
      have : rest.length + 2 = (a :: b :: rest).length := by simp
      omega
    have hne : rest ≠ [] := by
      intro e
      rw [e] at hr
      simp at hr
    have ih := merklePair_odd H rest hr
    have hd : (a :: b :: rest).getLastD "" = rest.getLastD "" := by
      cases rest with
      | nil => exact absurd rfl hne
      | cons c t => simp [List.getLastD_eq_getLast?]
    simp only [List.cons_append, pairAdjacent, merklePair, ih, hd]
    rfl

/-- C1: the Merkle digest builder returns `""` on an empty record set; a
leaf is the hash of the pipe-joined (InvoiceDate, CustomerID, Quantity,
UnitPrice, TotalAmount) strings in that order; a level with an odd node
count duplicates its last node and then pairs adjacent nodes, each parent
hashing the concatenation of its two children's hex strings (an
even-count level pairs without duplication); in particular a 3-record set
duplicates its third leaf, yielding exactly 2 parents, and the root is
the hash of their concatenation.  All of it holds for any 256-bit hash
function `H`. -/
theorem merkle_root_spec (H : String → String) (r t1 t2 t3 : TxnRecord)
    (ns ms : List String) (hodd : ns.length % 2 = 1) (heven : ms.length % 2 = 0) :
    compute_merkle_root H [] = ""
  ∧ merkleLeaf H r = H (r.InvoiceDate ++ "|" ++ r.CustomerID ++ "|" ++ r.Quantity ++ "|"
      ++ r.UnitPrice ++ "|" ++ r.TotalAmount)
  ∧ compute_merkle_root H [r] = merkleLeaf H r
  ∧ merklePair H ns = pairAdjacent H (ns ++ [ns.getLastD ""])
  ∧ merklePair H ms = pairAdjacent H ms
  ∧ merklePair H [merkleLeaf H t1, merkleLeaf H t2, merkleLeaf H t3]
      = [H (merkleLeaf H t1 ++ merkleLeaf H t2), H (merkleLeaf H t3 ++ merkleLeaf H t3)]
  ∧ compute_merkle_root H [t1, t2, t3]
      = H (H (merkleLeaf H t1 ++ merkleLeaf H t2) ++ H (merkleLeaf H t3 ++ merkleLeaf H t3)) :=
  ⟨rfl,
   by simp [merkleLeaf, String.intercalate, String.intercalate.go, String.append_assoc],
   rfl,
   merklePair_odd H ns hodd,
   merklePair_even H ms heven,
   rfl,
   rfl⟩

theorem merkle_root_spec_witness :
    merklePair (fun s => "<" ++ s ++ ">") ["a", "b", "c"]
      = pairAdjacent (fun s => "<" ++ s ++ ">") (["a", "b", "c"] ++ [["a", "b", "c"].getLastD ""]) :=
  (merkle_root_spec (fun s => "<" ++ s ++ ">") ⟨"a", "b", "c", "d", "e"⟩ ⟨"1", "1", "1", "1", "1"⟩
    ⟨"2", "2", "2", "2", "2"⟩ ⟨"3", "3", "3", "3", "3"⟩ ["a", "b", "c"] [] (by decide)
    (by decide)).2.2.2.1

/-! ## Rate limiter (C3, C9) -/

/-- C3: an admission check first drops from the front every timestamp
older than `now − window`; if at least `limit` timestamps remain it
rejects without appending, otherwise it appends `now` and admits.  With
limit 3 and window 60 for one key, checks at 0, 10, 20 admit, the check
at 30 rejects, and a check at 100 — after the window has fully elapsed —
admits again. -/
theorem rate_limit_sliding_window (limit : Nat) (window : Int) (h : List Int) (now : Int) :
    (_enforce_rate_limit limit window h now
      = (if (h.dropWhile fun t => decide (t < now - window)).length < limit
         then ((h.dropWhile fun t => decide (t < now - window)) ++ [now], true)
         else ((h.dropWhile fun t => decide (t < now - window)), false)))
  ∧ runRateChecks 3 60 [] [0, 10, 20, 30] = ([0, 10, 20], [true, true, true, false])
  ∧ _enforce_rate_limit 3 60 [0, 10, 20] 100 = ([100], true) := by
  refine ⟨?_, by decide, by decide⟩
  unfold _enforce_rate_limit
  rcases Nat.lt_or_ge (h.dropWhile fun t => decide (t < now - window)).length limit with hc | hc
  · simp [hc, Nat.not_le.mpr hc]
  · simp [hc, Nat.not_lt.mpr hc]

theorem runRateChecks_length_le (limit : Nat) (window : Int) :
    ∀ (times h0 : List Int), h0.length ≤ limit →
      (runRateChecks limit window h0 times).1.length ≤ limit
  | [], _, hh => hh
  | t :: ts, h0, hh => by
    have step : (_enforce_rate_limit limit window h0 t).1.length ≤ limit := by
      unfold _enforce_rate_limit
      have hle : (h0.dropWhile fun x => decide (x < t - window)).length ≤ h0.length :=
        List.IsSuffix.length_le (List.dropWhile_suffix _)
      rcases Nat.lt_or_ge (h0.dropWhile fun x => decide (x < t - window)).length limit with hc | hc
      · simp only [Nat.not_le.mpr hc, if_neg, if_false]
        simp [Nat.succ_le_of_lt hc]
      · simp only [if_pos hc]
        omega
    have := runRateChecks_length_le limit window ts (_enforce_rate_limit limit window h0 t).1 step
    simpa [runRateChecks] using this

/-- C9: starting from an empty history, the per-key history never exceeds
the configured limit after any sequence of checks; a rejected check
leaves the history at its trimmed value — a suffix of the previous
history, with nothing appended — so a stream of rejected checks cannot
extend the blocked period. -/
theorem rate_limit_history_invariant (limit : Nat) (window : Int) (times : List Int)
    (h : List Int) (now : Int)
    (hrej : (_enforce_rate_limit limit window h now).2 = false) :
    (runRateChecks limit window [] times).1.length ≤ limit
  ∧ (_enforce_rate_limit limit window h now).1
      = h.dropWhile (fun t => decide (t < now - window))
  ∧ (_enforce_rate_limit limit window h now).1.IsSuffix h := by
  have hstate : (_enforce_rate_limit limit window h now).1
      = h.dropWhile (fun t => decide (t < now - window)) := by
    unfold _enforce_rate_limit at hrej ⊢
    rcases Nat.lt_or_ge (h.dropWhile fun t => decide (t < now - window)).length limit with hc | hc
    · simp [Nat.not_le.mpr hc] at hrej
    · simp [if_pos hc]
  refine ⟨runRateChecks_length_le limit window times [] (Nat.zero_le _), hstate, ?_⟩
  rw [hstate]
  exact List.dropWhile_suffix _

theorem rate_limit_history_invariant_witness :
    (runRateChecks 1 60 [] [0, 1]).1.length ≤ 1
  ∧ (_enforce_rate_limit 1 60 [50] 60).1 = [50].dropWhile (fun t => decide (t < 60 - 60))
  ∧ (_enforce_rate_limit 1 60 [50] 60).1.IsSuffix [50] :=
  rate_limit_history_invariant 1 60 [0, 1] [50] 60 (by decide)

/-! ## The ingest route (C4) -/

/-- C4 (the code bug): the §8 sample payload passes validation, and the
handler then crashes with a `NameError` — `_init_upload_storage` (line
752) is not defined anywhere in the repository — so no persistence call
is made and neither the storage-error response nor the 201 success
response can ever be produced. -/
theorem ingest_upload_name_error :
    (_validate_upload_payload adaPayload "2024-06-01T00:00:00" "2024-06-01T00:00:01").isOk = true
  ∧ ingest_upload adaPayload "2024-06-01T00:00:00" "2024-06-01T00:00:01"
      = (.crash "NameError: name '_init_upload_storage' is not defined", []) := ⟨rfl, rfl⟩

/-! ## The validator rejects with the complete error list (C2) -/

theorem toList_ofList (l : List PyVal) : (PVList.ofList l).toList = l := by
  induction l with
  | nil => rfl
  | cons a t ih => simp [PVList.ofList, PVList.toList, ih]

/-- Unfolding `_validate_upload_payload` on a payload whose `columns`
field matches the schema: only the data checks remain. -/
theorem validate_payload_unfold (xs : PVList) (meta : PyVal) (nowU nowR : String) :
    _validate_upload_payload (mkIngestPayload uploadColumnsVal (.list xs) meta) nowU nowR
      = (if xs.toList.isEmpty then Except.error ["'data' must be a non-empty array of rows."]
         else if MAX_UPLOAD_ROWS < xs.toList.length then
           Except.error ["A maximum of " ++ natStr MAX_UPLOAD_ROWS ++ " rows is allowed per upload."]
         else if (collectRowErrors xs.toList).isEmpty then
           match _sanitize_meta meta (sanitizedKept xs.toList).length nowU nowR with
           | .error es => .error es
           | .ok m => .ok ⟨sanitizedKept xs.toList, UPLOAD_EXPECTED_COLUMNS, m⟩
         else Except.error (collectRowErrors xs.toList)) := rfl

/-- C2: for a batch whose header list matches the schema and whose row
count is within the maximum, the validator accumulates the errors of
*all* rows — the error list is exactly the concatenation, in row order,
of each row's error list, which is itself the concatenation, in column
order, of each column's errors — and if that list is non-empty the whole
batch is rejected with it: the ingest handler answers 422 and hands
nothing to the Store. -/
theorem upload_validation_accumulates_all_errors
    (xs : PVList) (meta : PyVal) (nowU nowR : String) (rkvs : PVDict) (i : Nat)
    (hne : xs.toList ≠ []) (hmax : xs.toList.length ≤ MAX_UPLOAD_ROWS)
    (herr : collectRowErrors xs.toList ≠ []) :
    _validate_upload_payload (mkIngestPayload uploadColumnsVal (.list xs) meta) nowU nowR
        = .error (collectRowErrors xs.toList)
  ∧ ingest_upload (mkIngestPayload uploadColumnsVal (.list xs) meta) nowU nowR
        = (.response 422 false (collectRowErrors xs.toList), [])
  ∧ collectRowErrors xs.toList
        = ((enumFrom1 1 xs.toList).map fun p => (_validate_row p.2 p.1).2).flatten
  ∧ (_validate_row (.dict rkvs) i).2
        = (UPLOAD_SCHEMA.map fun col => (rowFieldPiece rkvs i col).2).flatten := by
  have h1 : _validate_upload_payload (mkIngestPayload uploadColumnsVal (.list xs) meta) nowU nowR
      = .error (collectRowErrors xs.toList) := by
    rw [validate_payload_unfold]
    rw [if_neg, if_neg, if_neg]
    · simpa using herr
    · omega
    · simpa using hne
  refine ⟨h1, ?_, ?_, rfl⟩
  · unfold ingest_upload
    rw [h1]
  · simp [collectRowErrors, validateResults, List.map_map]
    rfl

theorem upload_validation_accumulates_all_errors_witness :
    _validate_upload_payload (mkIngestPayload uploadColumnsVal (.list badBatch) .none) "U" "R"
      = .error ["Row 1: 'Invoice' must be an integer.",
                "Row 1: 'InvoiceDate' must be a valid date (YYYY-MM-DD).",
                "Row 1: 'Status' is required.",
                "Row 2: must be an object with the expected columns."] :=
  ((upload_validation_accumulates_all_errors badBatch .none "U" "R" .nil 0 (by decide) (by decide)
    (by decide)).1).trans rfl

/-! ## Sanitized-row key set (C10) -/

theorem rowFieldPiece_ok_shape (kvs : PVDict) (i : Nat) (col : UploadColumn)
    (h : (rowFieldPiece kvs i col).2 = []) :
    ∃ w, (rowFieldPiece kvs i col).1 = [(col.key, w)] := by
  unfold rowFieldPiece at h ⊢
  by_cases hb : _is_blank (pyGet kvs col.key) = true
  · exact ⟨.str "", by simp [hb]⟩
  · simp only [Bool.not_eq_true] at hb
    simp only [hb, Bool.false_eq_true, if_false] at h ⊢
    cases hc : _coerce_value (pyGet kvs col.key) col.ty col.key i with
    | ok v => exact ⟨v, by simp [hc]⟩
    | error e => simp [hc] at h

theorem validate_row_fields_keys : ∀ (schema : List UploadColumn) (kvs : PVDict) (i : Nat),
    ((schema.map (rowFieldPiece kvs i)).map (·.2)).flatten = [] →
    (((schema.map (rowFieldPiece kvs i)).map (·.1)).flatten).map Prod.fst = schema.map (·.key)
  | [], _, _, _ => rfl
  | col :: rest, kvs, i, h => by
    simp only [List.map_cons, List.flatten_cons, List.append_eq_nil] at h
    obtain ⟨h1, h2⟩ := h
    obtain ⟨w, hw⟩ := rowFieldPiece_ok_shape kvs i col h1
    have ih := validate_row_fields_keys rest kvs i h2
    simp only [List.map_cons, List.flatten_cons, hw, List.map_append, ih, List.map_cons,
      List.map_nil, List.singleton_append]

theorem pyGet_filterSchemaKeys : ∀ (kvs : PVDict) (k : String),
    k ∈ UPLOAD_EXPECTED_COLUMNS → pyGet (filterSchemaKeys kvs) k = pyGet kvs k
  | .nil, _, _ => rfl
  | .cons k2 v2 rest, k, hk => by
    by_cases hin : k2 ∈ UPLOAD_EXPECTED_COLUMNS
    · simp only [filterSchemaKeys, if_pos hin, pyGet]
      by_cases he : k2 = k
      · simp [he]
      · simp [he, pyGet_filterSchemaKeys rest k hk]
    · have hne : ¬(k2 = k) := fun e => hin (e ▸ hk)
      simp only [filterSchemaKeys, if_neg hin, pyGet, if_neg hne]
      exact pyGet_filterSchemaKeys rest k hk

/-- C10 (amended): a row object validated *without field errors* yields a
sanitized dict with exactly the seven schema keys in schema order (a key
whose coercion failed is omitted from the — discarded — dict, which is
the correction); keys outside the schema are silently ignored; and a row
that is not an object yields a row-level error naming its index. -/
theorem validate_row_keys_amended (kvs : PVDict) (i j : Nat) (v : PyVal)
    (hnoerr : (_validate_row (.dict kvs) i).2 = [])
    (hnd : ∀ l : PVDict, v ≠ .dict l) :
    (_validate_row (.dict kvs) i).1.map Prod.fst = UPLOAD_EXPECTED_COLUMNS
  ∧ _validate_row (.dict kvs) j = _validate_row (.dict (filterSchemaKeys kvs)) j
  ∧ _validate_row v j = ([], ["Row " ++ natStr j ++ ": must be an object with the expected columns."]) := by
  refine ⟨?_, ?_, ?_⟩
  · exact validate_row_fields_keys UPLOAD_SCHEMA kvs i hnoerr
  · have hcols : ∀ col ∈ UPLOAD_SCHEMA, rowFieldPiece (filterSchemaKeys kvs) j col = rowFieldPiece kvs j col := by
      intro col hcol
      unfold rowFieldPiece
      rw [pyGet_filterSchemaKeys kvs col.key (List.mem_map_of_mem (·.key) hcol)]
    have hmap : UPLOAD_SCHEMA.map (rowFieldPiece (filterSchemaKeys kvs) j)
        = UPLOAD_SCHEMA.map (rowFieldPiece kvs j) := List.map_congr_left hcols
    have lhs : _validate_row (.dict kvs) j
        = (((UPLOAD_SCHEMA.map (rowFieldPiece kvs j)).map (·.1)).flatten,
           ((UPLOAD_SCHEMA.map (rowFieldPiece kvs j)).map (·.2)).flatten) := rfl
    have rhs : _validate_row (.dict (filterSchemaKeys kvs)) j
        = (((UPLOAD_SCHEMA.map (rowFieldPiece (filterSchemaKeys kvs) j)).map (·.1)).flatten,
           ((UPLOAD_SCHEMA.map (rowFieldPiece (filterSchemaKeys kvs) j)).map (·.2)).flatten) := rfl
    rw [lhs, rhs, hmap]
  · cases v with
    | dict l => exact absurd rfl (hnd l)
    | none => rfl
    | bool b => rfl
    | int n => rfl
    | float d => rfl
    | str s => rfl
    | datetime t => rfl
    | list xs => rfl

theorem validate_row_keys_amended_witness :
    (_validate_row adaRow 1).1.map Prod.fst = UPLOAD_EXPECTED_COLUMNS :=
  (validate_row_keys_amended (PVDict.ofList
    [("Invoice", .int 123456), ("CustomerID", .int 7890), ("CustomerName", .str "Ada Lovelace"),
     ("Amount", .float ⟨125075, 2⟩), ("Currency", .str "USD"), ("InvoiceDate", .str "2024-01-01"),
     ("Status", .str "Paid")]) 1 1 .none (by decide) (fun l h => PyVal.noConfusion h)).1

/-- C10's claim as frozen — every row object's sanitized dict has exactly
the seven schema keys — fails on a row whose `Invoice` fails coercion:
that key is missing from the sanitized dict. -/
theorem validate_row_keys_counterexample :
    ¬((_validate_row badRow 1).1.map Prod.fst = UPLOAD_EXPECTED_COLUMNS) := by decide

/-! ## Date parsing priority (C5) -/

/-- `_coerce_value` on a date column, for any non-`datetime` cell: the
attempt ladder in source order. -/
theorem coerce_date_eq (v : PyVal) (hnd : ∀ l : PyDateTime, v ≠ .datetime l)
    (col : String) (i : Nat) :
    _coerce_value v .date col i
      = (match fromisoformatDT (replaceZ (_sanitize_string v)) with
         | some t => .ok (.str (dateIso t.date))
         | none =>
           match fromisoformatDT (_sanitize_string v) with
           | some t => .ok (.str (dateIso t.date))
           | none =>
             match strptimeYmd (_sanitize_string v) with
             | some d => .ok (.str (dateIso d))
             | none =>
               match strptimeDmy (_sanitize_string v) with
               | some d => .ok (.str (dateIso d))
               | none =>
                 match strptimeMdy (_sanitize_string v) with
                 | some d => .ok (.str (dateIso d))
                 | none => .error ("Row " ++ natStr i ++ ": '" ++ col
                     ++ "' must be a valid date (YYYY-MM-DD).")) := by
  cases v with
  | datetime t => exact absurd rfl (hnd t)
  | none => rfl
  | bool b => rfl
  | int n => rfl
  | float d => rfl
  | str s => rfl
  | list xs => rfl
  | dict kvs => rfl

/-- C5: a non-blank date cell is parsed by trying, in priority order,
ISO-8601 on the `Z`-normalized text, ISO-8601 on the raw text, then the
formats `%Y-%m-%d`, `%d/%m/%Y`, `%m/%d/%Y`; the first success wins and
the value is normalized to the calendar date; if every attempt fails, a
field error naming the row and column is recorded.  Concretely,
`"2024-13-45"` in `InvoiceDate` of row 1 gives exactly the date-format
error naming row 1 and `InvoiceDate`, and `"01/02/2024"` normalizes to
`"2024-02-01"` (day/month tried before month/day). -/
theorem date_coercion_priority (v : PyVal) (col : String) (i : Nat)
    (t t2 : PyDateTime) (d1 d2 d3 : PyDate) :
    ((∀ l : PyDateTime, v ≠ .datetime l) →
      fromisoformatDT (replaceZ (_sanitize_string v)) = some t →
      _coerce_value v .date col i = .ok (.str (dateIso t.date)))
  ∧ ((∀ l : PyDateTime, v ≠ .datetime l) →
      fromisoformatDT (replaceZ (_sanitize_string v)) = none →
      fromisoformatDT (_sanitize_string v) = some t2 →
      _coerce_value v .date col i = .ok (.str (dateIso t2.date)))
  ∧ ((∀ l : PyDateTime, v ≠ .datetime l) →
      fromisoformatDT (replaceZ (_sanitize_string v)) = none →
      fromisoformatDT (_sanitize_string v) = none →
      strptimeYmd (_sanitize_string v) = some d1 →
      _coerce_value v .date col i = .ok (.str (dateIso d1)))
  ∧ ((∀ l : PyDateTime, v ≠ .datetime l) →
      fromisoformatDT (replaceZ (_sanitize_string v)) = none →
      fromisoformatDT (_sanitize_string v) = none →
      strptimeYmd (_sanitize_string v) = none →
      strptimeDmy (_sanitize_string v) = some d2 →
      _coerce_value v .date col i = .ok (.str (dateIso d2)))
  ∧ ((∀ l : PyDateTime, v ≠ .datetime l) →
      fromisoformatDT (replaceZ (_sanitize_string v)) = none →
      fromisoformatDT (_sanitize_string v) = none →
      strptimeYmd (_sanitize_string v) = none →
      strptimeDmy (_sanitize_string v) = none →
      strptimeMdy (_sanitize_string v) = some d3 →
      _coerce_value v .date col i = .ok (.str (dateIso d3)))
  ∧ ((∀ l : PyDateTime, v ≠ .datetime l) →
      fromisoformatDT (replaceZ (_sanitize_string v)) = none →
      fromisoformatDT (_sanitize_string v) = none →
      strptimeYmd (_sanitize_string v) = none →
      strptimeDmy (_sanitize_string v) = none →
      strptimeMdy (_sanitize_string v) = none →
      _coerce_value v .date col i
        = .error ("Row " ++ natStr i ++ ": '" ++ col ++ "' must be a valid date (YYYY-MM-DD)."))
  ∧ (_validate_row dateBadRow 1).2 = ["Row 1: 'InvoiceDate' must be a valid date (YYYY-MM-DD)."]
  ∧ _coerce_value (.str "01/02/2024") .date col i = .ok (.str "2024-02-01") := by
  refine ⟨?_, ?_, ?_, ?_, ?_, ?_, rfl, rfl⟩
  · intro hnd h1
    rw [coerce_date_eq v hnd col i, h1]
  · intro hnd h1 h2
    rw [coerce_date_eq v hnd col i, h1, h2]
  · intro hnd h1 h2 h3
    rw [coerce_date_eq v hnd col i, h1, h2, h3]
  · intro hnd h1 h2 h3 h4
    rw [coerce_date_eq v hnd col i, h1, h2, h3, h4]
  · intro hnd h1 h2 h3 h4 h5
    rw [coerce_date_eq v hnd col i, h1, h2, h3, h4, h5]
  · intro hnd h1 h2 h3 h4 h5
    rw [coerce_date_eq v hnd col i, h1, h2, h3, h4, h5]

theorem date_coercion_priority_witness :
    _coerce_value (.str "2024-13-45") .date "InvoiceDate" 1
      = .error "Row 1: 'InvoiceDate' must be a valid date (YYYY-MM-DD)." :=
  (date_coercion_priority (.str "2024-13-45") "InvoiceDate" 1
    ⟨⟨1, 1, 1⟩, 0, 0, 0, 0, Option.none⟩ ⟨⟨1, 1, 1⟩, 0, 0, 0, 0, Option.none⟩
    ⟨1, 1, 1⟩ ⟨1, 1, 1⟩ ⟨1, 1, 1⟩).2.2.2.2.2.1
    (fun l h => PyVal.noConfusion h) rfl rfl rfl rfl rfl

/-! ## Metadata sanitization (C8) -/

/-- C8: on metadata sanitization success, the filename defaults to
`"unknown.xlsx"` exactly when the sanitized caller filename is blank, the
server-received timestamp and the row count are the server-side values
whatever the caller sent, warnings are the non-empty trimmed strings of
the caller's list (anything else gives no warnings), and the upload time
is the server clock when the caller supplied none (falsy) and the
ISO-8601-normalized caller value otherwise; a truthy caller upload time
that does not parse as ISO-8601 rejects with the metadata error, and a
batch whose rows are all valid is still rejected whole with exactly that
metadata error. -/
theorem sanitize_meta_spec (mr : PVDict) (rc : Nat) (nowU nowR : String) (m : SanitizedMeta)
    (xs : PVList) (nowU2 nowR2 : String) :
    (_sanitize_meta (.dict mr) rc nowU nowR = .ok m →
       (m.originalFilename
          = (if _sanitize_string (pyGet mr "originalFilename") = "" then "unknown.xlsx"
             else _sanitize_string (pyGet mr "originalFilename")))
     ∧ m.serverReceivedAt = nowR
     ∧ m.rowCount = rc
     ∧ m.warnings = (match pyGet mr "warnings" with
         | .list ws => ((ws.toList.map fun w => _sanitize_string w).filter fun t => !t.isEmpty)
         | _ => [])
     ∧ (pyTruthy (pyGet mr "uploadTime") = false → m.uploadTime = nowU)
     ∧ (pyTruthy (pyGet mr "uploadTime") = true →
          ∃ t, fromisoformatDT (replaceZ (_sanitize_string (pyGet mr "uploadTime"))) = some t
             ∧ m.uploadTime = isoformatDT t))
  ∧ (pyTruthy (pyGet mr "uploadTime") = true →
       fromisoformatDT (replaceZ (_sanitize_string (pyGet mr "uploadTime"))) = none →
       _sanitize_meta (.dict mr) rc nowU nowR
         = .error ["meta.uploadTime must be ISO-8601 formatted."])
  ∧ (xs.toList ≠ [] → xs.toList.length ≤ MAX_UPLOAD_ROWS →
       collectRowErrors xs.toList = [] →
       pyTruthy (pyGet mr "uploadTime") = true →
       fromisoformatDT (replaceZ (_sanitize_string (pyGet mr "uploadTime"))) = none →
       _validate_upload_payload (mkIngestPayload uploadColumnsVal (.list xs) (.dict mr)) nowU2 nowR2
         = .error ["meta.uploadTime must be ISO-8601 formatted."]) := by
  have herr : pyTruthy (pyGet mr "uploadTime") = true →
      fromisoformatDT (replaceZ (_sanitize_string (pyGet mr "uploadTime"))) = none →
      ∀ rc2 nu nr, _sanitize_meta (.dict mr) rc2 nu nr
        = .error ["meta.uploadTime must be ISO-8601 formatted."] := by
    intro ht hp rc2 nu nr
    unfold _sanitize_meta
    simp only [ht, if_pos, hp]
  refine ⟨?_, fun ht hp => herr ht hp rc nowU nowR, ?_⟩
  · intro hok
    by_cases ht : pyTruthy (pyGet mr "uploadTime") = true
    · cases hp : fromisoformatDT (replaceZ (_sanitize_string (pyGet mr "uploadTime"))) with
      | none =>
        rw [herr ht hp rc nowU nowR] at hok
        cases hok
      | some t =>
        have hm : _sanitize_meta (.dict mr) rc nowU nowR
            = .ok ⟨(if _sanitize_string (pyGet mr "originalFilename") = "" then "unknown.xlsx"
                    else _sanitize_string (pyGet mr "originalFilename")),
                   isoformatDT t,
                   (match pyGet mr "warnings" with
                    | .list ws => ((ws.toList.map fun w => _sanitize_string w).filter
                        fun s => !s.isEmpty)
                    | _ => []),
                   nowR, rc⟩ := by
          unfold _sanitize_meta
          simp only [ht, if_pos, hp]
        rw [hm] at hok
        injection hok with hok
        subst hok
        refine ⟨by simp, rfl, rfl, rfl, ?_, ?_⟩
        · intro hf
          rw [ht] at hf
          cases hf
        · exact fun _ => ⟨t, rfl, rfl⟩
    · have ht2 : pyTruthy (pyGet mr "uploadTime") = false := by
        cases hb : pyTruthy (pyGet mr "uploadTime") with
        | false => rfl
        | true => exact absurd hb ht
      have hm : _sanitize_meta (.dict mr) rc nowU nowR
          = .ok ⟨(if _sanitize_string (pyGet mr "originalFilename") = "" then "unknown.xlsx"
                  else _sanitize_string (pyGet mr "originalFilename")),
                 nowU,
                 (match pyGet mr "warnings" with
                  | .list ws => ((ws.toList.map fun w => _sanitize_string w).filter
                      fun s => !s.isEmpty)
                  | _ => []),
                 nowR, rc⟩ := by
        unfold _sanitize_meta
        simp only [ht2, Bool.false_eq_true, if_neg, if_false]
      rw [hm] at hok
      injection hok with hok
      subst hok
      refine ⟨by simp, rfl, rfl, rfl, fun _ => rfl, ?_⟩
      · intro hf
        rw [hf] at ht2
        exact absurd ht2 (by decide)
  · intro hne hmax hval ht hp
    rw [validate_payload_unfold]
    rw [if_neg (by simpa using hne), if_neg (by omega)]
    rw [if_pos (by simp [hval])]
    rw [herr ht hp]

theorem sanitize_meta_spec_witness :
    _sanitize_meta (.dict (PVDict.ofList [("uploadTime", .str "not-a-date")])) 3 "U" "R"
      = .error ["meta.uploadTime must be ISO-8601 formatted."] :=
  (sanitize_meta_spec (PVDict.ofList [("uploadTime", .str "not-a-date")]) 3 "U" "R"
    ⟨"", "", [], "", 0⟩ .nil "U2" "R2").2.1 rfl rfl

/-! ## RFM segmentation: the strict monetary maximum is a Top Spender (C6) -/

theorem ratFloor_eq_floor (q : ℚ) : ratFloor q = ⌊q⌋ := by rw [Rat.floor_def]; rfl

theorem np_percentile_le_max (xs : List ℚ) (M p : ℚ) (hne : xs ≠ [])
    (hub : ∀ x ∈ xs, x ≤ M) (hp0 : 0 ≤ p) (hp1 : p ≤ 100) :
    np_percentile xs p ≤ M := by
  have hperm := List.perm_insertionSort (fun a b : ℚ => a ≤ b) xs
  have hmem : ∀ x ∈ List.insertionSort (· ≤ ·) xs, x ≤ M := fun x hx =>
    hub x (hperm.mem_iff.mp hx)
  have hlen : (List.insertionSort (fun a b : ℚ => a ≤ b) xs).length = xs.length :=
    List.length_insertionSort _ xs
  have hxs : xs.length ≠ 0 := fun e => hne (List.length_eq_zero.mp e)
  unfold np_percentile
  rw [if_neg (by omega : ¬(List.insertionSort (· ≤ ·) xs).length = 0)]
  set s := List.insertionSort (fun a b : ℚ => a ≤ b) xs with hs
  set n := s.length with hn
  have hn1 : 1 ≤ n := by omega
  set pos := ((n : ℚ) - 1) * p / 100 with hpos
  have hn1q : (0 : ℚ) ≤ (n : ℚ) - 1 := by
    have : (1 : ℚ) ≤ (n : ℚ) := by exact_mod_cast hn1
    linarith
  have hpos0 : 0 ≤ pos := by
    rw [hpos]
    positivity
  have hposle : pos ≤ (n : ℚ) - 1 := by
    rw [hpos]
    rw [div_le_iff₀ (by norm_num : (0:ℚ) < 100)]
    nlinarith
  dsimp only
  rw [ratFloor_eq_floor]
  have hfl0 : 0 ≤ ⌊pos⌋ := Int.floor_nonneg.mpr hpos0
  have hfln : ⌊pos⌋ ≤ (n : Int) - 1 := by
    have h1 : ⌊pos⌋ ≤ ⌊(n : ℚ) - 1⌋ := Int.floor_le_floor hposle
    have h2 : ((n : ℚ) - 1) = (((n : Int) - 1 : Int) : ℚ) := by push_cast; ring
    rw [h2, Int.floor_intCast] at h1
    exact h1
  have hi_lt : (⌊pos⌋).toNat < n := by omega
  have hlo_mem : s.getD (⌊pos⌋).toNat 0 ∈ s := by
    rw [List.getD_eq_getElem s 0 hi_lt]
    exact List.getElem_mem _
  have hlo : s.getD (⌊pos⌋).toNat 0 ≤ M := hmem _ hlo_mem
  have hhi : s.getD ((⌊pos⌋).toNat + 1) (s.getD (⌊pos⌋).toNat 0) ≤ M := by
    by_cases hh : (⌊pos⌋).toNat + 1 < n
    · rw [List.getD_eq_getElem s _ hh]
      exact hmem _ (List.getElem_mem _)
    · rw [List.getD_eq_default _ _ (by omega)]
      exact hlo
  have hfr0 : 0 ≤ pos - ⌊pos⌋ := by
    have := Int.floor_le pos
    linarith
  have hfr1 : pos - ⌊pos⌋ ≤ 1 := by
    have := Int.lt_floor_add_one pos
    push_cast at this
    linarith
  nlinarith [mul_nonneg hfr0 (sub_nonneg.mpr hhi), hlo, hhi]

/-- C6: in any transaction set with at least 5 distinct customers, the
customer whose monetary value is strictly maximal over the population is
assigned the segment "Top Spenders", whatever its recency and frequency:
its monetary value bounds every element the 80th percentile interpolates
between. -/
theorem top_spender_segment (txs : List RfmTxn) (now : ℚ) (c : CustomerRFM)
    (h5 : 5 ≤ ((txs.map (·.customerId)).dedup).length)
    (hc : c ∈ build_rfm_segments txs now)
    (hmax : ∀ c2 ∈ build_rfm_segments txs now, c2 ≠ c → c2.monetary < c.monetary) :
    c.segment = "Top Spenders" := by
  have htxs : txs ≠ [] := by
    intro e
    subst e
    simp at h5
  have hbuild : build_rfm_segments txs now
      = List.insertionSort (fun a b => b.monetary ≤ a.monetary) (rfmEnriched txs now) := by
    unfold build_rfm_segments
    simp [htxs]
  rw [hbuild] at hc hmax
  have hperm := List.perm_insertionSort
    (fun a b : CustomerRFM => b.monetary ≤ a.monetary) (rfmEnriched txs now)
  have hcmem : c ∈ rfmEnriched txs now := hperm.mem_iff.mp hc
  unfold rfmEnriched at hcmem
  obtain ⟨r, hr, hcr⟩ := List.mem_map.mp hcmem
  have hmc : c.monetary = r.monetary := by
    rw [← hcr]
    rfl
  have hub : ∀ x ∈ (rfmGrouped txs now).map (·.monetary), x ≤ c.monetary := by
    intro x hx
    obtain ⟨r2, hr2, rfl⟩ := List.mem_map.mp hx
    have hmem2 : rfmEnrich
        (np_percentile ((rfmGrouped txs now).map fun r => (r.recency : ℚ)) 30)
        (np_percentile ((rfmGrouped txs now).map fun r => (r.recency : ℚ)) 70)
        (np_percentile ((rfmGrouped txs now).map fun r => (r.frequency : ℚ)) 80)
        (np_percentile ((rfmGrouped txs now).map fun r => (r.frequency : ℚ)) 30)
        (monetaryHighOf (rfmGrouped txs now))
        (np_percentile ((rfmGrouped txs now).map (·.monetary)) 35) r2
        ∈ List.insertionSort (fun a b => b.monetary ≤ a.monetary) (rfmEnriched txs now) := by
      apply hperm.mem_iff.mpr
      unfold rfmEnriched
      exact List.mem_map_of_mem _ hr2
    by_cases heq : rfmEnrich
        (np_percentile ((rfmGrouped txs now).map fun r => (r.recency : ℚ)) 30)
        (np_percentile ((rfmGrouped txs now).map fun r => (r.recency : ℚ)) 70)
        (np_percentile ((rfmGrouped txs now).map fun r => (r.frequency : ℚ)) 80)
        (np_percentile ((rfmGrouped txs now).map fun r => (r.frequency : ℚ)) 30)
        (monetaryHighOf (rfmGrouped txs now))
        (np_percentile ((rfmGrouped txs now).map (·.monetary)) 35) r2 = c
    · have : r2.monetary = c.monetary := by
        rw [← heq]
        rfl
      exact le_of_eq this
    · exact le_of_lt (hmax _ hmem2 heq)
  have hglen : (rfmGrouped txs now).length = ((txs.map (·.customerId)).dedup).length := by
    unfold rfmGrouped rfmCustomerIds
    simp [List.length_insertionSort]
  have hne2 : (rfmGrouped txs now).map (·.monetary) ≠ [] := by
    intro e
    have h0 : ((rfmGrouped txs now).map (·.monetary)).length = 0 := by
      rw [e]
      rfl
    rw [List.length_map, hglen] at h0
    omega
  have hperc : monetaryHighOf (rfmGrouped txs now) ≤ c.monetary :=
    np_percentile_le_max _ _ 80 hne2 hub (by norm_num) (by norm_num)
  have hseg : c.segment = assign_segment
      (np_percentile ((rfmGrouped txs now).map fun r => (r.recency : ℚ)) 30)
      (np_percentile ((rfmGrouped txs now).map fun r => (r.recency : ℚ)) 70)
      (np_percentile ((rfmGrouped txs now).map fun r => (r.frequency : ℚ)) 80)
      (np_percentile ((rfmGrouped txs now).map fun r => (r.frequency : ℚ)) 30)
      (monetaryHighOf (rfmGrouped txs now))
      (np_percentile ((rfmGrouped txs now).map (·.monetary)) 35) r := by
    rw [← hcr]
    rfl
  rw [hseg]
  unfold assign_segment
  rw [if_pos]
  rw [← hmc]
  exact hperc

theorem top_spender_segment_witness :
    (CustomerRFM.mk 5 96 1 500 "Top Spenders" (some "VIP 15% Discount")).segment
      = "Top Spenders" :=
  top_spender_segment [⟨1, 0, 10⟩, ⟨2, 1, 20⟩, ⟨3, 2, 30⟩, ⟨4, 3, 40⟩, ⟨5, 4, 500⟩] 100
    (CustomerRFM.mk 5 96 1 500 "Top Spenders" (some "VIP 15% Discount"))
    (by decide) (by decide) (by decide)

-- ============ C7 lemma stack, part 1: digits / strip / int ============

theorem digitChr_facts : ∀ d : Nat, d < 10 →
    digitVal (digitChr d) = d ∧ (digitChr d).isDigit = true ∧ isPyWs (digitChr d) = false
      ∧ digitChr d ≠ '-' ∧ digitChr d ≠ '+' ∧ digitChr d ≠ '.'
      ∧ digitChr d ≠ 'e' ∧ digitChr d ≠ 'E' ∧ digitChr d ≠ 'Z'
      ∧ digitChr d ≠ '\r' ∧ digitChr d ≠ '\n' := by decide

theorem valDigits_append_singleton (xs : List Nat) (d : Nat) :
    valDigits (xs ++ [d]) = 10 * valDigits xs + d := by
  simp [valDigits, List.foldl_append]

theorem natDigitsAux_lt10 : ∀ fuel n, ∀ d ∈ natDigitsAux fuel n, d < 10
  | 0, n => by simp [natDigitsAux]
  | fuel + 1, n => by
    intro d hd
    unfold natDigitsAux at hd
    by_cases h : n = 0
    · simp [h] at hd
    · simp [h] at hd
      rcases hd with h1 | h2
      · subst h1
        exact Nat.mod_lt _ (by norm_num)
      · exact natDigitsAux_lt10 fuel (n / 10) d h2

theorem natDigitsAux_val : ∀ fuel n, n ≤ fuel → valDigits (natDigitsAux fuel n).reverse = n
  | 0, n, h => by
    have : n = 0 := by omega
    simp [this, natDigitsAux, valDigits]
  | fuel + 1, n, h => by
    by_cases h0 : n = 0
    · simp [natDigitsAux, h0, valDigits]
    · have hlt : n / 10 < n := Nat.div_lt_self (by omega) (by norm_num)
      have hrec := natDigitsAux_val fuel (n / 10) (by omega)
      unfold natDigitsAux
      simp only [h0, if_neg, if_false, List.reverse_cons, valDigits_append_singleton, hrec]
      omega

theorem natChars_shape (n : Nat) : ∀ c ∈ natChars n, ∃ d, d < 10 ∧ c = digitChr d := by
  intro c hc
  unfold natChars at hc
  by_cases h : n = 0
  · simp [h] at hc
    exact ⟨0, by norm_num, by rw [hc]; rfl⟩
  · simp only [h, if_neg, if_false, List.mem_map, List.mem_reverse] at hc
    obtain ⟨d, hd, rfl⟩ := hc
    exact ⟨d, natDigitsAux_lt10 _ _ d hd, rfl⟩

theorem natChars_val (n : Nat) : valDigits ((natChars n).map digitVal) = n := by
  unfold natChars
  by_cases h : n = 0
  · subst h
    decide
  · simp only [h, if_neg, if_false]
    have hmm : ((natDigitsAux n n).reverse.map digitChr).map digitVal
        = (natDigitsAux n n).reverse := by
      rw [List.map_map]
      have : ∀ d ∈ (natDigitsAux n n).reverse, (digitVal ∘ digitChr) d = d := by
        intro d hd
        exact (digitChr_facts d (natDigitsAux_lt10 _ _ d (List.mem_reverse.mp hd))).1
      rw [List.map_congr_left this, List.map_id']
    rw [hmm, natDigitsAux_val n n le_rfl]

theorem natChars_ne_nil (n : Nat) : natChars n ≠ [] := by
  unfold natChars
  by_cases h : n = 0
  · simp [h]
  · obtain ⟨k, rfl⟩ := Nat.exists_eq_succ_of_ne_zero h
    simp [natDigitsAux, h]

theorem charsDigits_of_digits : ∀ cs : List Char, (∀ c ∈ cs, c.isDigit = true) →
    charsDigits cs = some (cs.map digitVal)
  | [], _ => rfl
  | c :: cs, h => by
    have hc := h c (List.mem_cons_self c cs)
    simp [charsDigits, hc,
      charsDigits_of_digits cs fun x hx => h x (List.mem_cons_of_mem _ hx)]

theorem dropWhile_eq_self_of_none (p : Char → Bool) :
    ∀ cs : List Char, (∀ c ∈ cs, p c = false) → cs.dropWhile p = cs
  | [], _ => rfl
  | c :: cs, h => by
    simp [List.dropWhile_cons, h c (List.mem_cons_self c cs)]

theorem stripChars_eq_self (cs : List Char) (h : ∀ c ∈ cs, isPyWs c = false) :
    stripChars cs = cs := by
  unfold stripChars
  rw [dropWhile_eq_self_of_none _ cs h,
    dropWhile_eq_self_of_none _ cs.reverse fun c hc => h c (List.mem_reverse.mp hc)]
  exact List.reverse_reverse cs

theorem natChars_not_ws (n : Nat) : ∀ c ∈ natChars n, isPyWs c = false := by
  intro c hc
  obtain ⟨d, hd, rfl⟩ := natChars_shape n c hc
  exact (digitChr_facts d hd).2.2.1

theorem natChars_isDigit (n : Nat) : ∀ c ∈ natChars n, c.isDigit = true := by
  intro c hc
  obtain ⟨d, hd, rfl⟩ := natChars_shape n c hc
  exact (digitChr_facts d hd).2.1

theorem intChars_not_ws (n : Int) : ∀ c ∈ intChars n, isPyWs c = false := by
  intro c hc
  unfold intChars at hc
  by_cases h : n < 0
  · simp only [h, if_pos] at hc
    rcases List.mem_cons.mp hc with h1 | h2
    · subst h1
      decide
    · exact natChars_not_ws _ c h2
  · simp only [h, if_neg, if_false] at hc
    exact natChars_not_ws _ c hc

theorem pyStrip_intRepr (n : Int) : pyStrip (intRepr n) = intRepr n := by
  unfold pyStrip intRepr
  rw [show (String.mk (intChars n)).toList = intChars n from rfl]
  rw [stripChars_eq_self _ (intChars_not_ws n)]

theorem pyParseInt_intRepr (n : Int) : pyParseInt (intRepr n) = some n := by
  unfold pyParseInt intRepr
  rw [show (String.mk (intChars n)).toList = intChars n from rfl]
  rw [stripChars_eq_self _ (intChars_not_ws n)]
  obtain ⟨c, cs, hcc⟩ := List.exists_cons_of_ne_nil (natChars_ne_nil n.natAbs)
  have hdigits : ∀ x ∈ c :: cs, x.isDigit = true := by
    rw [← hcc]
    exact natChars_isDigit _
  have hshape := natChars_shape n.natAbs
  rw [hcc] at hshape
  obtain ⟨d, hd, rfl⟩ := hshape c (List.mem_cons_self c cs)
  have hval : valDigits ((digitChr d :: cs).map digitVal) = n.natAbs := by
    rw [← hcc]
    exact natChars_val _
  by_cases hneg : n < 0
  · simp only [intChars, hneg, if_pos, hcc]
    rw [show parseSign ('-' :: digitChr d :: cs) = (true, digitChr d :: cs) from rfl]
    simp only [charsDigits_of_digits _ hdigits]
    rw [show intOfSign true (valDigits ((digitChr d :: cs).map digitVal)) =
      -(valDigits ((digitChr d :: cs).map digitVal) : Int) from rfl]
    rw [hval]
    congr 1
    omega
  · simp only [intChars, hneg, if_neg, if_false, hcc]
    have hs : parseSign (digitChr d :: cs) = (false, digitChr d :: cs) := by
      simp only [parseSign]
      rw [if_neg (digitChr_facts d hd).2.2.2.1, if_neg (digitChr_facts d hd).2.2.2.2.1]
    rw [hs]
    simp only [charsDigits_of_digits _ hdigits]
    rw [show intOfSign false (valDigits ((digitChr d :: cs).map digitVal)) =
      (valDigits ((digitChr d :: cs).map digitVal) : Int) from rfl]
    rw [hval]
    congr 1
    omega

-- ============ C7 lemma stack, part 2: float round-trip ============

theorem takeWhile_append_stop (p : Char → Bool) :
    ∀ (ds : List Char), (∀ c ∈ ds, p c = true) → ∀ (y : Char) (rest : List Char), p y = false →
      (ds ++ y :: rest).takeWhile p = ds ∧ (ds ++ y :: rest).dropWhile p = y :: rest
  | [], _, y, rest, hy => by simp [List.takeWhile_cons, List.dropWhile_cons, hy]
  | c :: ds, h, y, rest, hy => by
    have hc := h c (List.mem_cons_self c ds)
    have ih := takeWhile_append_stop p ds (fun x hx => h x (List.mem_cons_of_mem _ hx)) y rest hy
    simp [List.takeWhile_cons, List.dropWhile_cons, hc, ih.1, ih.2]

theorem takeWhile_all (p : Char → Bool) :
    ∀ ds : List Char, (∀ c ∈ ds, p c = true) → ds.takeWhile p = ds ∧ ds.dropWhile p = []
  | [], _ => ⟨rfl, rfl⟩
  | c :: ds, h => by
    have hc := h c (List.mem_cons_self c ds)
    have ih := takeWhile_all p ds fun x hx => h x (List.mem_cons_of_mem _ hx)
    simp [List.takeWhile_cons, List.dropWhile_cons, hc, ih.1, ih.2]

theorem valDigits_cons_zero (l : List Nat) : valDigits (0 :: l) = valDigits l := rfl

theorem valDigits_zeros : ∀ (k : Nat) (l : List Nat), valDigits (List.replicate k 0 ++ l) = valDigits l
  | 0, l => rfl
  | k + 1, l => by
    rw [List.replicate_succ, List.cons_append, valDigits_cons_zero]
    exact valDigits_zeros k l

theorem normDecAux_stop (e : Nat) (m : Int) (hm : m % 10 ≠ 0) : normDecAux e m = ⟨m, e⟩ := by
  cases e with
  | zero => rfl
  | succ e2 =>
    unfold normDecAux
    rw [if_neg hm]

theorem normDecAux_canon : ∀ (e : Nat) (m : Int), m ≠ 0 → (normDecAux e m).canon = true
  | 0, m, _ => by simp [normDecAux, Dec.canon]
  | e + 1, m, hm => by
    unfold normDecAux
    by_cases h10 : m % 10 = 0
    · rw [if_pos h10]
      apply normDecAux_canon e (m / 10)
      intro h
      apply hm
      omega
    · rw [if_neg h10]
      simp [Dec.canon, h10]

theorem normDec_canon (m : Int) (e : Nat) : (normDec m e).canon = true := by
  unfold normDec
  by_cases hm : m = 0
  · simp [hm, Dec.canon]
  · rw [if_neg hm]
    exact normDecAux_canon e m hm

theorem normDec_ten (m : Int) : normDec (10 * m) 1 = ⟨m, 0⟩ := by
  unfold normDec
  by_cases h : 10 * m = 0
  · have hm : m = 0 := by omega
    simp [h, hm]
  · rw [if_neg h]
    unfold normDecAux
    rw [if_pos (Int.mul_emod_right 10 m)]
    rw [Int.mul_ediv_cancel_left m (by norm_num)]
    rfl

theorem normDec_stop (m : Int) (e : Nat) (hm : m % 10 ≠ 0) : normDec m e = ⟨m, e⟩ := by
  unfold normDec
  have hm0 : m ≠ 0 := by
    intro h
    rw [h] at hm
    exact hm rfl
  rw [if_neg hm0]
  exact normDecAux_stop e m hm

theorem mkDecOf_canon (neg : Bool) (md : List Nat) (fl : Nat) (exp : Int) :
    (mkDecOf neg md fl exp).canon = true := by
  unfold mkDecOf
  by_cases h : (0 : Int) ≤ exp - (fl : Int)
  · rw [if_pos h]
    exact normDec_canon _ _
  · rw [if_neg h]
    exact normDec_canon _ _

theorem parseFloatExp_canon :
    ∀ (neg : Bool) (md : List Nat) (fl : Nat) (rest : List Char) (d : Dec),
      parseFloatExp neg md fl rest = some d → d.canon = true
  | neg, md, fl, [], d, h => by
    unfold parseFloatExp at h
    injection h with h
    rw [← h]
    exact mkDecOf_canon ..
  | neg, md, fl, c :: rest, d, h => by
    simp only [parseFloatExp] at h
    split at h
    · split at h
      · injection h with h
        rw [← h]
        exact mkDecOf_canon ..
      · cases h
    · cases h

theorem parseFloatBody_canon (neg : Bool) (cs : List Char) (d : Dec)
    (h : parseFloatBody neg cs = some d) : d.canon = true := by
  unfold parseFloatBody at h
  dsimp only at h
  split at h
  · split at h
    · cases h
    · exact parseFloatExp_canon _ _ _ _ _ h
  · split at h
    · cases h
    · exact parseFloatExp_canon _ _ _ _ _ h

theorem pyParseFloat_canon (s : String) (d : Dec) (h : pyParseFloat s = some d) :
    d.canon = true :=
  parseFloatBody_canon _ _ _ h

theorem decChars_not_ws (d : Dec) : ∀ c ∈ decChars d, isPyWs c = false := by
  intro c hc
  unfold decChars at hc
  have hsign : ∀ x ∈ (if d.m < 0 then ['-'] else ([] : List Char)), isPyWs x = false := by
    intro x hx
    by_cases h : d.m < 0
    · simp [h] at hx
      rw [hx]
      decide
    · simp [h] at hx
  have hpad : ∀ k, ∀ x ∈ (List.replicate k '0' ++ natChars d.m.natAbs), isPyWs x = false := by
    intro k x hx
    rcases List.mem_append.mp hx with h1 | h2
    · rw [List.eq_of_mem_replicate h1]
      decide
    · exact natChars_not_ws _ x h2
  by_cases he : d.e = 0
  · simp only [he, if_pos] at hc
    rcases List.mem_append.mp hc with h1 | h2
    · rcases List.mem_append.mp h1 with h3 | h4
      · exact hsign c h3
      · exact natChars_not_ws _ c h4
    · rcases List.mem_cons.mp h2 with h3 | h4
      · rw [h3]; decide
      · simp at h4
        rw [h4]
        decide
  · simp only [he, if_neg, if_false] at hc
    rcases List.mem_append.mp hc with h1 | h2
    · rcases List.mem_append.mp h1 with h3 | h4
      · exact hsign c h3
      · have : c ∈ (if (natChars d.m.natAbs).length ≤ d.e then
            List.replicate (d.e + 1 - (natChars d.m.natAbs).length) '0' ++ natChars d.m.natAbs
          else natChars d.m.natAbs) := List.mem_of_mem_take h4
        by_cases hl : (natChars d.m.natAbs).length ≤ d.e
        · rw [if_pos hl] at this
          exact hpad _ c this
        · rw [if_neg hl] at this
          exact natChars_not_ws _ c this
    · rcases List.mem_cons.mp h2 with h3 | h4
      · rw [h3]; decide
      · have : c ∈ (if (natChars d.m.natAbs).length ≤ d.e then
            List.replicate (d.e + 1 - (natChars d.m.natAbs).length) '0' ++ natChars d.m.natAbs
          else natChars d.m.natAbs) := List.mem_of_mem_drop h4
        by_cases hl : (natChars d.m.natAbs).length ≤ d.e
        · rw [if_pos hl] at this
          exact hpad _ c this
        · rw [if_neg hl] at this
          exact natChars_not_ws _ c this

theorem parseSign_neg (rest : List Char) : parseSign ('-' :: rest) = (true, rest) := by
  simp [parseSign]

theorem parseSign_digit (c : Char) (rest : List Char) (h : c.isDigit = true) :
    parseSign (c :: rest) = (false, c :: rest) := by
  have h1 : c ≠ '-' := by intro he; rw [he] at h; exact absurd h (by decide)
  have h2 : c ≠ '+' := by intro he; rw [he] at h; exact absurd h (by decide)
  simp only [parseSign]
  rw [if_neg h1, if_neg h2]

theorem parseFloatBody_digits (neg : Bool) (ds1 ds2 : List Char)
    (h1 : ∀ c ∈ ds1, c.isDigit = true) (h2 : ∀ c ∈ ds2, c.isDigit = true)
    (hne : ds1 ≠ []) :
    parseFloatBody neg (ds1 ++ '.' :: ds2) =
      some (mkDecOf neg ((ds1 ++ ds2).map digitVal) ds2.length 0) := by
  unfold parseFloatBody
  dsimp only
  have hdot : ('.').isDigit = false := by decide
  have hsp := takeWhile_append_stop Char.isDigit ds1 h1 '.' ds2 hdot
  rw [hsp.1, hsp.2]
  split
  next rest2 heq =>
    injection heq with _ heq2
    subst heq2
    have hall := takeWhile_all Char.isDigit ds2 h2
    rw [hall.1, hall.2]
    have hemp : ds1.isEmpty = false := by
      cases ds1 with
      | nil => exact absurd rfl hne
      | cons a as => rfl
    rw [hemp, Bool.false_and]
    rw [if_neg (by decide : ¬ (false = true))]
    rfl
  next hnm =>
    exact absurd rfl (hnm ds2)

theorem intOfSign_natAbs (m : Int) : intOfSign (decide (m < 0)) m.natAbs = m := by
  unfold intOfSign
  by_cases h : m < 0
  · rw [if_pos (decide_eq_true h)]
    omega
  · rw [if_neg (by simp [h])]
    omega

theorem intOfSign_ten_natAbs (m : Int) :
    intOfSign (decide (m < 0)) (10 * m.natAbs) = 10 * m := by
  unfold intOfSign
  by_cases h : m < 0
  · rw [if_pos (decide_eq_true h)]
    omega
  · rw [if_neg (by simp [h])]
    omega

theorem mkDecOf_case_e0 (d : Dec) (he : d.e = 0) :
    mkDecOf (decide (d.m < 0)) ((natChars d.m.natAbs ++ ['0']).map digitVal) 1 0 = d := by
  unfold mkDecOf
  dsimp only
  have hv : valDigits ((natChars d.m.natAbs ++ ['0']).map digitVal) = 10 * d.m.natAbs := by
    rw [List.map_append]
    simp only [List.map_cons, List.map_nil]
    rw [valDigits_append_singleton, natChars_val]
    rfl
  rw [hv, intOfSign_ten_natAbs]
  rw [if_neg (by norm_num : ¬ (0 : Int) ≤ 0 - ((1 : Nat) : Int))]
  have h2 : (-((0 : Int) - ((1 : Nat) : Int))).toNat = 1 := by norm_num
  rw [h2, normDec_ten, ← he]

theorem mkDecOf_val (d : Dec) (md : List Nat) (fl : Nat)
    (hv : valDigits md = d.m.natAbs) (hfl : fl = d.e)
    (hm10 : d.m % 10 ≠ 0) :
    mkDecOf (decide (d.m < 0)) md fl 0 = d := by
  have he0 : d.e ≠ 0 ∨ d.e = 0 := (Decidable.em _).symm.imp id id
  unfold mkDecOf
  dsimp only
  rw [hv, intOfSign_natAbs, hfl]
  by_cases hz : d.e = 0
  · rw [hz]
    rw [if_pos (by norm_num : (0 : Int) ≤ 0 - ((0 : Nat) : Int))]
    have : d.m * (10 : Int) ^ (((0 : Int) - ((0 : Nat) : Int)).toNat) = d.m := by norm_num
    rw [this, normDec_stop d.m 0 hm10, ← hz]
  · have h1 : ¬ (0 : Int) ≤ 0 - (d.e : Int) := by omega
    rw [if_neg h1]
    have h2 : (-((0 : Int) - (d.e : Int))).toNat = d.e := by omega
    rw [h2, normDec_stop d.m d.e hm10]

theorem decChars_e0 (d : Dec) (he : d.e = 0) :
    decChars d = (if d.m < 0 then ['-'] else []) ++ (natChars d.m.natAbs ++ '.' :: ['0']) := by
  unfold decChars
  dsimp only
  rw [he]
  rw [if_pos rfl, List.append_assoc]

theorem decChars_epos_small (d : Dec) (he : d.e ≠ 0)
    (hL : (natChars d.m.natAbs).length ≤ d.e) :
    decChars d = (if d.m < 0 then ['-'] else []) ++
      (['0'] ++ '.' :: (List.replicate (d.e - (natChars d.m.natAbs).length) '0' ++
        natChars d.m.natAbs)) := by
  unfold decChars
  dsimp only
  rw [if_neg he, if_pos hL, List.append_assoc]
  congr 1
  have hlen : (List.replicate (d.e + 1 - (natChars d.m.natAbs).length) '0' ++
      natChars d.m.natAbs).length = d.e + 1 := by
    rw [List.length_append, List.length_replicate]
    omega
  rw [hlen]
  have h1 : d.e + 1 - d.e = 1 := by omega
  rw [h1]
  obtain ⟨j, hj⟩ : ∃ j, d.e + 1 - (natChars d.m.natAbs).length = j + 1 :=
    ⟨d.e - (natChars d.m.natAbs).length, by omega⟩
  rw [hj, List.replicate_succ, List.cons_append]
  rw [show j = d.e - (natChars d.m.natAbs).length from by omega]
  rfl

theorem decChars_epos_big (d : Dec) (he : d.e ≠ 0)
    (hL : ¬ (natChars d.m.natAbs).length ≤ d.e) :
    decChars d = (if d.m < 0 then ['-'] else []) ++
      ((natChars d.m.natAbs).take ((natChars d.m.natAbs).length - d.e) ++
        '.' :: (natChars d.m.natAbs).drop ((natChars d.m.natAbs).length - d.e)) := by
  unfold decChars
  dsimp only
  rw [if_neg he, if_neg hL, List.append_assoc]

theorem parseFloat_core (d : Dec) (ds1 ds2 : List Char)
    (h1 : ∀ c ∈ ds1, c.isDigit = true) (h2 : ∀ c ∈ ds2, c.isDigit = true)
    (hne : ds1 ≠ [])
    (hdc : decChars d = (if d.m < 0 then ['-'] else []) ++ (ds1 ++ '.' :: ds2))
    (hmk : mkDecOf (decide (d.m < 0)) ((ds1 ++ ds2).map digitVal) ds2.length 0 = d) :
    pyParseFloat (decRepr d) = some d := by
  unfold pyParseFloat decRepr
  dsimp only
  rw [show (String.mk (decChars d)).toList = decChars d from rfl]
  rw [stripChars_eq_self _ (decChars_not_ws d), hdc]
  obtain ⟨c, tl, hds1⟩ : ∃ c tl, ds1 = c :: tl := by
    cases ds1 with
    | nil => exact absurd rfl hne
    | cons c tl => exact ⟨c, tl, rfl⟩
  by_cases hmneg : d.m < 0
  · rw [if_pos hmneg, List.singleton_append, parseSign_neg]
    have hb : (true : Bool) = decide (d.m < 0) := by simp [hmneg]
    rw [show (true, ds1 ++ '.' :: ds2).1 = true from rfl,
      show (true, ds1 ++ '.' :: ds2).2 = ds1 ++ '.' :: ds2 from rfl]
    rw [hb, parseFloatBody_digits _ _ _ h1 h2 hne, hmk]
  · rw [if_neg hmneg, List.nil_append]
    have hcd : c.isDigit = true := h1 c (by rw [hds1]; exact List.mem_cons_self c tl)
    rw [hds1, List.cons_append, parseSign_digit c _ hcd]
    rw [show (false, c :: (tl ++ '.' :: ds2)).1 = false from rfl,
      show (false, c :: (tl ++ '.' :: ds2)).2 = c :: (tl ++ '.' :: ds2) from rfl]
    rw [← List.cons_append, ← hds1]
    have hb : (false : Bool) = decide (d.m < 0) := by simp [hmneg]
    rw [hb, parseFloatBody_digits _ _ _ h1 h2 hne, hmk]

theorem pyParseFloat_decRepr (d : Dec) (hc : d.canon = true) :
    pyParseFloat (decRepr d) = some d := by
  by_cases he : d.e = 0
  · apply parseFloat_core d (natChars d.m.natAbs) ['0']
    · exact natChars_isDigit _
    · intro c hc2
      rw [List.mem_singleton.mp hc2]
      decide
    · exact natChars_ne_nil _
    · exact decChars_e0 d he
    · exact mkDecOf_case_e0 d he
  · have hm10 : d.m % 10 ≠ 0 := by
      unfold Dec.canon at hc
      simp [he] at hc
      omega
    by_cases hL : (natChars d.m.natAbs).length ≤ d.e
    · apply parseFloat_core d ['0']
        (List.replicate (d.e - (natChars d.m.natAbs).length) '0' ++ natChars d.m.natAbs)
      · intro c h
        rw [List.mem_singleton.mp h]
        decide
      · intro c h
        rcases List.mem_append.mp h with hh | hh
        · rw [List.eq_of_mem_replicate hh]
          decide
        · exact natChars_isDigit _ c hh
      · exact List.cons_ne_nil '0' []
      · exact decChars_epos_small d he hL
      · apply mkDecOf_val d _ _ ?hv ?hfl hm10
        case hv =>
          rw [List.map_append, List.map_append, List.map_replicate]
          simp only [List.map_cons, List.map_nil]
          have h00 : digitVal '0' = 0 := rfl
          rw [h00, List.singleton_append, valDigits_cons_zero, valDigits_zeros, natChars_val]
        case hfl =>
          rw [List.length_append, List.length_replicate]
          omega
    · apply parseFloat_core d
        ((natChars d.m.natAbs).take ((natChars d.m.natAbs).length - d.e))
        ((natChars d.m.natAbs).drop ((natChars d.m.natAbs).length - d.e))
      · intro c h
        exact natChars_isDigit _ c (List.mem_of_mem_take h)
      · intro c h
        exact natChars_isDigit _ c (List.mem_of_mem_drop h)
      · intro hnil
        have hlt := congrArg List.length hnil
        rw [List.length_take] at hlt
        have hLpos : (natChars d.m.natAbs).length ≠ 0 := by
          intro h0
          exact natChars_ne_nil _ (List.eq_nil_of_length_eq_zero h0)
        simp at hlt
        omega
      · exact decChars_epos_big d he hL
      · apply mkDecOf_val d _ _ ?hv2 ?hfl2 hm10
        case hv2 =>
          rw [List.take_append_drop, natChars_val]
        case hfl2 =>
          rw [List.length_drop]
          omega

-- ============ C7 lemma stack, part 3: dates ============

theorem natDigitsAux_length_le : ∀ (fuel n k : Nat), n < 10 ^ k → (natDigitsAux fuel n).length ≤ k
  | 0, n, k, _ => by simp [natDigitsAux]
  | fuel + 1, n, k, h => by
    unfold natDigitsAux
    by_cases h0 : n = 0
    · simp [h0]
    · rw [if_neg h0]
      cases k with
      | zero => exact absurd (by omega : n = 0) h0
      | succ k2 =>
        have hlt : n / 10 < 10 ^ k2 := by
          rw [pow_succ] at h
          omega
        have ih := natDigitsAux_length_le fuel (n / 10) k2 hlt
        simp only [List.length_cons]
        omega

theorem natChars_length_le (n k : Nat) (hk : 1 ≤ k) (h : n < 10 ^ k) :
    (natChars n).length ≤ k := by
  unfold natChars
  by_cases h0 : n = 0
  · rw [if_pos h0]
    simpa using hk
  · rw [if_neg h0, List.length_map, List.length_reverse]
    exact natDigitsAux_length_le n n k h

theorem padChars_length (w n : Nat) (h : (natChars n).length ≤ w) : (padChars w n).length = w := by
  unfold padChars
  rw [List.length_append, List.length_replicate]
  omega

theorem padChars_isDigit (w n : Nat) : ∀ c ∈ padChars w n, c.isDigit = true := by
  intro c hc
  rcases List.mem_append.mp hc with h | h
  · rw [List.eq_of_mem_replicate h]
    decide
  · exact natChars_isDigit n c h

theorem padChars_shape (w n : Nat) : ∀ c ∈ padChars w n, ∃ k, k < 10 ∧ c = digitChr k := by
  intro c hc
  rcases List.mem_append.mp hc with h | h
  · exact ⟨0, by omega, by rw [List.eq_of_mem_replicate h]; decide⟩
  · exact natChars_shape n c h

theorem padChars_val (w n : Nat) : valDigits ((padChars w n).map digitVal) = n := by
  unfold padChars
  rw [List.map_append, List.map_replicate]
  rw [show digitVal '0' = 0 from rfl]
  rw [valDigits_zeros]
  exact natChars_val n

theorem list_len_two {α : Type} (l : List α) (h : l.length = 2) : ∃ a b, l = [a, b] := by
  cases l with
  | nil => simp at h
  | cons a l1 =>
    cases l1 with
    | nil => simp at h
    | cons b l2 =>
      cases l2 with
      | nil => exact ⟨a, b, rfl⟩
      | cons c l3 => simp [List.length_cons] at h

theorem list_len_four {α : Type} (l : List α) (h : l.length = 4) : ∃ a b c d, l = [a, b, c, d] := by
  cases l with
  | nil => simp at h
  | cons a l1 =>
    cases l1 with
    | nil => simp at h
    | cons b l2 =>
      cases l2 with
      | nil => simp [List.length_cons] at h
      | cons c l3 =>
        cases l3 with
        | nil => simp [List.length_cons] at h
        | cons d l4 =>
          cases l4 with
          | nil => exact ⟨a, b, c, d, rfl⟩
          | cons e l5 => simp [List.length_cons] at h

theorem daysInMonth_le (y m : Nat) : daysInMonth y m ≤ 31 := by
  unfold daysInMonth
  split
  · split <;> omega
  · split <;> omega

theorem dateIsoChars_shape (d : PyDate) :
    ∀ c ∈ dateIsoChars d, c = '-' ∨ ∃ k, k < 10 ∧ c = digitChr k := by
  intro c hc
  unfold dateIsoChars at hc
  rcases List.mem_append.mp hc with h | h
  · rcases List.mem_append.mp h with h | h
    · exact .inr (padChars_shape _ _ c h)
    · rcases List.mem_cons.mp h with h | h
      · exact .inl h
      · exact .inr (padChars_shape _ _ c h)
  · rcases List.mem_cons.mp h with h | h
    · exact .inl h
    · exact .inr (padChars_shape _ _ c h)

theorem dateIsoChars_not_ws (d : PyDate) : ∀ c ∈ dateIsoChars d, isPyWs c = false := by
  intro c hc
  rcases dateIsoChars_shape d c hc with h | ⟨k, hk, h⟩
  · rw [h]; decide
  · rw [h]; exact (digitChr_facts k hk).2.2.1

theorem map_if_eq_self (old new : Char) (cs : List Char) (h : ∀ c ∈ cs, c ≠ old) :
    cs.map (fun c => if c = old then new else c) = cs := by
  induction cs with
  | nil => rfl
  | cons a l ih =>
    rw [List.map_cons, if_neg (h a (List.mem_cons_self a l)),
      ih fun c hc => h c (List.mem_cons_of_mem a hc)]

theorem replaceChar_eq_self (old : Char) (new : List Char) (cs : List Char)
    (h : ∀ c ∈ cs, c ≠ old) : replaceChar old new cs = cs := by
  induction cs with
  | nil => rfl
  | cons a l ih =>
    unfold replaceChar at ih ⊢
    rw [List.flatMap_cons, if_neg (h a (List.mem_cons_self a l)),
      ih fun c hc => h c (List.mem_cons_of_mem a hc)]
    rfl

theorem dateIsoChars_decomp (d : PyDate) (hv : validYMD d.year d.month d.day = true) :
    ∃ a b c dc e f g k,
      dateIsoChars d = [a, b, c, dc, '-', e, f, '-', g, k]
      ∧ padChars 4 d.year = [a, b, c, dc]
      ∧ padChars 2 d.month = [e, f]
      ∧ padChars 2 d.day = [g, k] := by
  have hb := hv
  simp only [validYMD, Bool.and_eq_true, decide_eq_true_eq] at hb
  obtain ⟨⟨⟨⟨⟨h1, h2⟩, h3⟩, h4⟩, h5⟩, h6⟩ := hb
  have hy4 : (natChars d.year).length ≤ 4 := by
    apply natChars_length_le _ 4 (by omega)
    have : (10 : Nat) ^ 4 = 10000 := by norm_num
    omega
  have hm2 : (natChars d.month).length ≤ 2 := by
    apply natChars_length_le _ 2 (by omega)
    have : (10 : Nat) ^ 2 = 100 := by norm_num
    omega
  have hd2 : (natChars d.day).length ≤ 2 := by
    apply natChars_length_le _ 2 (by omega)
    have h31 := daysInMonth_le d.year d.month
    have : (10 : Nat) ^ 2 = 100 := by norm_num
    omega
  obtain ⟨a, b, c, dc, hy⟩ := list_len_four _ (padChars_length 4 d.year hy4)
  obtain ⟨e, f, hmo⟩ := list_len_two _ (padChars_length 2 d.month hm2)
  obtain ⟨g, k, hdy⟩ := list_len_two _ (padChars_length 2 d.day hd2)
  refine ⟨a, b, c, dc, e, f, g, k, ?_, hy, hmo, hdy⟩
  unfold dateIsoChars
  rw [hy, hmo, hdy]
  rfl

theorem dateIsoChars_length (d : PyDate) (hv : validYMD d.year d.month d.day = true) :
    (dateIsoChars d).length = 10 := by
  obtain ⟨a, b, c, dc, e, f, g, k, hd, _, _, _⟩ := dateIsoChars_decomp d hv
  rw [hd]
  rfl

theorem parseIsoDate_dateIso (d : PyDate) (hv : validYMD d.year d.month d.day = true) :
    parseIsoDate (dateIsoChars d) = some d := by
  obtain ⟨a, b, c, dc, e, f, g, k, hd, h4, h2m, h2d⟩ := dateIsoChars_decomp d hv
  have hda : ∀ x ∈ ([a, b, c, dc] : List Char), x.isDigit = true := by
    rw [← h4]; exact padChars_isDigit 4 d.year
  have hdm : ∀ x ∈ ([e, f] : List Char), x.isDigit = true := by
    rw [← h2m]; exact padChars_isDigit 2 d.month
  have hdd : ∀ x ∈ ([g, k] : List Char), x.isDigit = true := by
    rw [← h2d]; exact padChars_isDigit 2 d.day
  have hy : valDigits [digitVal a, digitVal b, digitVal c, digitVal dc] = d.year := by
    have hpv := padChars_val 4 d.year
    rw [h4] at hpv
    simpa using hpv
  have hmo : 10 * digitVal e + digitVal f = d.month := by
    have hpv := padChars_val 2 d.month
    rw [h2m] at hpv
    simp [valDigits] at hpv
    omega
  have hdy : 10 * digitVal g + digitVal k = d.day := by
    have hpv := padChars_val 2 d.day
    rw [h2d] at hpv
    simp [valDigits] at hpv
    omega
  rw [hd]
  simp only [parseIsoDate]
  rw [if_pos ?hc]
  case hc =>
    simp [hda a (by simp), hda b (by simp), hda c (by simp), hda dc (by simp),
      hdm e (by simp), hdm f (by simp), hdd g (by simp), hdd k (by simp)]
  rw [hy, hmo, hdy, if_pos hv]

theorem fromisoformatDT_dateIso (d : PyDate) (hv : validYMD d.year d.month d.day = true) :
    fromisoformatDT (dateIso d) = some ⟨d, 0, 0, 0, 0, none⟩ := by
  unfold fromisoformatDT
  dsimp only
  rw [show (dateIso d).toList = dateIsoChars d from rfl]
  rw [List.take_of_length_le (le_of_eq (dateIsoChars_length d hv))]
  rw [parseIsoDate_dateIso d hv]
  rw [List.drop_eq_nil_of_le (le_of_eq (dateIsoChars_length d hv))]

theorem sanitize_dateIso (d : PyDate) (hv : validYMD d.year d.month d.day = true) :
    _sanitize_string (.str (dateIso d)) = dateIso d := by
  have h1 : _sanitize_string (.str (dateIso d))
      = String.mk ((((stripChars (dateIso d).toList).map
          (fun c => if c = '\r' then ' ' else c)).map
          (fun c => if c = '\n' then ' ' else c)).take 255) := rfl
  rw [h1, show (dateIso d).toList = dateIsoChars d from rfl,
    stripChars_eq_self _ (dateIsoChars_not_ws d)]
  rw [map_if_eq_self '\r' ' ' (dateIsoChars d) ?hcr]
  case hcr =>
    intro c hc
    rcases dateIsoChars_shape d c hc with h | ⟨k, hk, h⟩
    · rw [h]; decide
    · rw [h]; exact (digitChr_facts k hk).2.2.2.2.2.2.2.2.2.1
  rw [map_if_eq_self '\n' ' ' (dateIsoChars d) ?hlf]
  case hlf =>
    intro c hc
    rcases dateIsoChars_shape d c hc with h | ⟨k, hk, h⟩
    · rw [h]; decide
    · rw [h]; exact (digitChr_facts k hk).2.2.2.2.2.2.2.2.2.2
  rw [List.take_of_length_le (by rw [dateIsoChars_length d hv]; omega)]
  rfl

theorem replaceZ_dateIso (d : PyDate) : replaceZ (dateIso d) = dateIso d := by
  unfold replaceZ
  rw [show (dateIso d).toList = dateIsoChars d from rfl,
    replaceChar_eq_self _ _ _ ?hz]
  case hz =>
    intro c hc
    rcases dateIsoChars_shape d c hc with h | ⟨k, hk, h⟩
    · rw [h]; decide
    · rw [h]; exact (digitChr_facts k hk).2.2.2.2.2.2.2.2.1
  rfl

theorem dateIso_blank_false (d : PyDate) (hv : validYMD d.year d.month d.day = true) :
    _is_blank (.str (dateIso d)) = false := by
  have h1 : _is_blank (.str (dateIso d)) = (stripChars (dateIso d).toList).isEmpty := rfl
  rw [h1, show (dateIso d).toList = dateIsoChars d from rfl,
    stripChars_eq_self _ (dateIsoChars_not_ws d)]
  cases hde : dateIsoChars d with
  | nil =>
    have h10 := dateIsoChars_length d hv
    rw [hde] at h10
    simp at h10
  | cons a l => rfl

theorem sanitize_str_fix_blank (s : String) (hfix : _sanitize_string (.str s) = s)
    (hne : s.isEmpty = false) : _is_blank (.str s) = false := by
  have h1 : _is_blank (.str s) = (stripChars s.toList).isEmpty := rfl
  rw [h1]
  cases hsc : stripChars s.toList with
  | cons a l => rfl
  | nil =>
    exfalso
    have h2 : _sanitize_string (.str s)
        = String.mk ((((stripChars s.toList).map
            (fun c => if c = '\r' then ' ' else c)).map
            (fun c => if c = '\n' then ' ' else c)).take 255) := rfl
    rw [h2, hsc] at hfix
    rw [← hfix] at hne
    exact absurd hne (by decide)

theorem pyStrip_decRepr (d : Dec) : pyStrip (decRepr d) = decRepr d := by
  unfold pyStrip decRepr
  rw [show (String.mk (decChars d)).toList = decChars d from rfl,
    stripChars_eq_self _ (decChars_not_ws d)]

theorem parseIsoDate_valid (cs : List Char) (d : PyDate) (h : parseIsoDate cs = some d) :
    validYMD d.year d.month d.day = true := by
  unfold parseIsoDate at h
  split at h
  · split at h
    · dsimp only at h
      split at h
      next hvv =>
        injection h with h
        rw [← h]
        exact hvv
      · cases h
    · cases h
  · cases h

theorem parseIsoTime_date (d : PyDate) (tstr : List Char) (t : PyDateTime)
    (h : parseIsoTime d tstr = some t) : t.date = d := by
  unfold parseIsoTime at h
  dsimp only at h
  split at h
  · cases h
  · split at h
    · split at h
      · injection h with h
        rw [← h]
      · split at h
        · split at h
          · cases h
          · split at h
            · injection h with h
              rw [← h]
            · cases h
        · cases h
    · cases h

theorem fromisoformatDT_valid (s : String) (t : PyDateTime)
    (h : fromisoformatDT s = some t) :
    validYMD t.date.year t.date.month t.date.day = true := by
  unfold fromisoformatDT at h
  dsimp only at h
  split at h
  · cases h
  next dd heq =>
    have hvd := parseIsoDate_valid _ _ heq
    split at h
    · injection h with h
      rw [← h]
      exact hvd
    · split at h
      · injection h with h
        rw [← h]
        exact hvd
      · have hdate := parseIsoTime_date dd _ t h
        rw [hdate]
        exact hvd

theorem strptimeYmd_valid (s : String) (d : PyDate) (h : strptimeYmd s = some d) :
    validYMD d.year d.month d.day = true := by
  unfold strptimeYmd at h
  split at h
  · cases h
  · split at h
    · cases h
    · split at h
      · cases h
      · split at h
        · cases h
        · split at h
          · split at h
            next hvv =>
              injection h with h
              rw [← h]
              exact hvv
            · cases h
          · cases h

theorem strptimeDmy_valid (s : String) (d : PyDate) (h : strptimeDmy s = some d) :
    validYMD d.year d.month d.day = true := by
  unfold strptimeDmy at h
  split at h
  · cases h
  · split at h
    · cases h
    · split at h
      · cases h
      · split at h
        · cases h
        · split at h
          · split at h
            next hvv =>
              injection h with h
              rw [← h]
              exact hvv
            · cases h
          · cases h

theorem strptimeMdy_valid (s : String) (d : PyDate) (h : strptimeMdy s = some d) :
    validYMD d.year d.month d.day = true := by
  unfold strptimeMdy at h
  split at h
  · cases h
  · split at h
    · cases h
    · split at h
      · cases h
      · split at h
        · cases h
        · split at h
          · split at h
            next hvv =>
              injection h with h
              rw [← h]
              exact hvv
            · cases h
          · cases h

-- ============ C7 lemma stack, part 4: coercion round trips ============

theorem coerce_int_shape (v : PyVal) (lbl : String) (i : Nat) (w : PyVal)
    (h : _coerce_value v .int lbl i = .ok w) : ∃ n, w = .int n := by
  simp only [_coerce_value] at h
  split at h
  · injection h with h
    exact ⟨_, h.symm⟩
  · cases h

theorem coerce_float_shape (v : PyVal) (lbl : String) (i : Nat) (w : PyVal)
    (h : _coerce_value v .float lbl i = .ok w) :
    ∃ dec : Dec, w = .float dec ∧ dec.canon = true := by
  simp only [_coerce_value] at h
  split at h
  next dec heq =>
    injection h with h
    exact ⟨dec, h.symm, pyParseFloat_canon _ _ heq⟩
  · cases h

theorem coerce_str_shape (v : PyVal) (lbl : String) (i : Nat) (w : PyVal)
    (h : _coerce_value v .str lbl i = .ok w) :
    w = .str (_sanitize_string v) := by
  simp only [_coerce_value] at h
  injection h with h
  exact h.symm

theorem coerce_date_shape (v : PyVal) (lbl : String) (i : Nat) (w : PyVal)
    (hdt : ∀ t, v = .datetime t → pyDateTimeValid t = true)
    (h : _coerce_value v .date lbl i = .ok w) :
    ∃ dd : PyDate, w = .str (dateIso dd) ∧ validYMD dd.year dd.month dd.day = true := by
  simp only [_coerce_value] at h
  split at h
  next t =>
    have hval := hdt t rfl
    injection h with h
    refine ⟨t.date, h.symm, ?_⟩
    unfold pyDateTimeValid at hval
    simp only [Bool.and_eq_true] at hval
    exact hval.1.1.1.1.1
  · split at h
    next t heq =>
      injection h with h
      exact ⟨t.date, h.symm, fromisoformatDT_valid _ _ heq⟩
    · split at h
      next t heq =>
        injection h with h
        exact ⟨t.date, h.symm, fromisoformatDT_valid _ _ heq⟩
      · split at h
        next dd heq =>
          injection h with h
          exact ⟨dd, h.symm, strptimeYmd_valid _ _ heq⟩
        · split at h
          next dd heq =>
            injection h with h
            exact ⟨dd, h.symm, strptimeDmy_valid _ _ heq⟩
          · split at h
            next dd heq =>
              injection h with h
              exact ⟨dd, h.symm, strptimeMdy_valid _ _ heq⟩
            · cases h

theorem coerce_int_roundtrip (n : Int) (lbl : String) (j : Nat) :
    _coerce_value (.int n) .int lbl j = .ok (.int n) := by
  simp only [_coerce_value]
  rw [show pyStr (.int n) = intRepr n from rfl, pyStrip_intRepr, pyParseInt_intRepr]

theorem coerce_float_roundtrip (dec : Dec) (hc : dec.canon = true) (lbl : String) (j : Nat) :
    _coerce_value (.float dec) .float lbl j = .ok (.float dec) := by
  simp only [_coerce_value]
  rw [show pyStr (.float dec) = decRepr dec from rfl, pyStrip_decRepr,
    pyParseFloat_decRepr dec hc]

theorem coerce_str_roundtrip (s : String) (hfix : _sanitize_string (.str s) = s)
    (lbl : String) (j : Nat) :
    _coerce_value (.str s) .str lbl j = .ok (.str s) := by
  simp only [_coerce_value]
  rw [hfix]

theorem coerce_date_roundtrip (dd : PyDate) (hv : validYMD dd.year dd.month dd.day = true)
    (lbl : String) (j : Nat) :
    _coerce_value (.str (dateIso dd)) .date lbl j = .ok (.str (dateIso dd)) := by
  simp only [_coerce_value]
  rw [sanitize_dateIso dd hv, replaceZ_dateIso dd, fromisoformatDT_dateIso dd hv]

-- ============ C7 lemma stack, part 5: row round trip ============

theorem piece_ok_of_no_error (kvs : PVDict) (i : Nat) (col : UploadColumn)
    (hreq : col.required = true)
    (h : (rowFieldPiece kvs i col).2 = []) :
    ∃ w, _coerce_value (pyGet kvs col.key) col.ty col.key i = .ok w
        ∧ rowFieldPiece kvs i col = ([(col.key, w)], []) := by
  unfold rowFieldPiece at h ⊢
  dsimp only at h ⊢
  by_cases hb : _is_blank (pyGet kvs col.key) = true
  · rw [if_pos hb, hreq] at h
    simp at h
  · rw [if_neg hb] at h ⊢
    cases hc : _coerce_value (pyGet kvs col.key) col.ty col.key i with
    | ok v =>
      exact ⟨v, rfl, rfl⟩
    | error e =>
      rw [hc] at h
      exact List.noConfusion h

theorem pyGet_cons_eq (k : String) (v : PyVal) (rest : PVDict) :
    pyGet (.cons k v rest) k = v := by
  simp [pyGet]

theorem pyGet_cons_ne (k k2 : String) (h : ¬ k = k2) (v : PyVal) (rest : PVDict) :
    pyGet (.cons k v rest) k2 = pyGet rest k2 := by
  simp [pyGet, h]

theorem pyGet_mem : ∀ (kvs : PVDict) (k : String),
    pyGet kvs k = .none ∨ (k, pyGet kvs k) ∈ kvs.toList
  | .nil, _ => .inl rfl
  | .cons k2 v rest, k => by
    by_cases he : k2 = k
    · right
      subst he
      rw [pyGet_cons_eq]
      exact List.mem_cons_self _ _
    · rw [pyGet_cons_ne k2 k he]
      rcases pyGet_mem rest k with h | h
      · exact .inl h
      · exact .inr (List.mem_cons_of_mem _ h)

theorem hdt_of_rowValid (kvs : PVDict) (k : String)
    (hdtv : rowDatetimeCellsValid (.dict kvs) = true) :
    ∀ t, pyGet kvs k = .datetime t → pyDateTimeValid t = true := by
  intro t hg
  rcases pyGet_mem kvs k with h | h
  · rw [hg] at h
    exact PyVal.noConfusion h
  · unfold rowDatetimeCellsValid at hdtv
    rw [List.all_eq_true] at hdtv
    have h2 := hdtv _ h
    rw [hg] at h2
    exact h2

theorem piece_second (kvs2 : PVDict) (j : Nat) (col : UploadColumn) (w : PyVal)
    (hg : pyGet kvs2 col.key = w)
    (hblank : _is_blank w = false)
    (hco : _coerce_value w col.ty col.key j = .ok w) :
    rowFieldPiece kvs2 j col = ([(col.key, w)], []) := by
  unfold rowFieldPiece
  dsimp only
  rw [hg, hblank, if_neg (by decide : ¬ (false = true)), hco]

theorem validate_row_seven (v1 v2 v3 v4 v5 v6 v7 : PyVal) (j : Nat)
    (hb1 : _is_blank v1 = false) (hb2 : _is_blank v2 = false) (hb3 : _is_blank v3 = false)
    (hb4 : _is_blank v4 = false) (hb5 : _is_blank v5 = false) (hb6 : _is_blank v6 = false)
    (hb7 : _is_blank v7 = false)
    (hc1 : _coerce_value v1 .int "Invoice" j = .ok v1)
    (hc2 : _coerce_value v2 .int "CustomerID" j = .ok v2)
    (hc3 : _coerce_value v3 .str "CustomerName" j = .ok v3)
    (hc4 : _coerce_value v4 .float "Amount" j = .ok v4)
    (hc5 : _coerce_value v5 .str "Currency" j = .ok v5)
    (hc6 : _coerce_value v6 .date "InvoiceDate" j = .ok v6)
    (hc7 : _coerce_value v7 .str "Status" j = .ok v7) :
    _validate_row (rowToPyVal
      [("Invoice", v1), ("CustomerID", v2), ("CustomerName", v3), ("Amount", v4),
       ("Currency", v5), ("InvoiceDate", v6), ("Status", v7)]) j
      = ([("Invoice", v1), ("CustomerID", v2), ("CustomerName", v3), ("Amount", v4),
          ("Currency", v5), ("InvoiceDate", v6), ("Status", v7)], []) := by
  have q1 : rowFieldPiece (PVDict.ofList
      [("Invoice", v1), ("CustomerID", v2), ("CustomerName", v3), ("Amount", v4),
       ("Currency", v5), ("InvoiceDate", v6), ("Status", v7)]) j ⟨"Invoice", .int, true⟩
      = ([("Invoice", v1)], []) := by
    apply piece_second
    · simp [PVDict.ofList, pyGet]
    · exact hb1
    · exact hc1
  have q2 : rowFieldPiece (PVDict.ofList
      [("Invoice", v1), ("CustomerID", v2), ("CustomerName", v3), ("Amount", v4),
       ("Currency", v5), ("InvoiceDate", v6), ("Status", v7)]) j ⟨"CustomerID", .int, true⟩
      = ([("CustomerID", v2)], []) := by
    apply piece_second
    · simp [PVDict.ofList, pyGet]
    · exact hb2
    · exact hc2
  have q3 : rowFieldPiece (PVDict.ofList
      [("Invoice", v1), ("CustomerID", v2), ("CustomerName", v3), ("Amount", v4),
       ("Currency", v5), ("InvoiceDate", v6), ("Status", v7)]) j ⟨"CustomerName", .str, true⟩
      = ([("CustomerName", v3)], []) := by
    apply piece_second
    · simp [PVDict.ofList, pyGet]
    · exact hb3
    · exact hc3
  have q4 : rowFieldPiece (PVDict.ofList
      [("Invoice", v1), ("CustomerID", v2), ("CustomerName", v3), ("Amount", v4),
       ("Currency", v5), ("InvoiceDate", v6), ("Status", v7)]) j ⟨"Amount", .float, true⟩
      = ([("Amount", v4)], []) := by
    apply piece_second
    · simp [PVDict.ofList, pyGet]
    · exact hb4
    · exact hc4
  have q5 : rowFieldPiece (PVDict.ofList
      [("Invoice", v1), ("CustomerID", v2), ("CustomerName", v3), ("Amount", v4),
       ("Currency", v5), ("InvoiceDate", v6), ("Status", v7)]) j ⟨"Currency", .str, true⟩
      = ([("Currency", v5)], []) := by
    apply piece_second
    · simp [PVDict.ofList, pyGet]
    · exact hb5
    · exact hc5
  have q6 : rowFieldPiece (PVDict.ofList
      [("Invoice", v1), ("CustomerID", v2), ("CustomerName", v3), ("Amount", v4),
       ("Currency", v5), ("InvoiceDate", v6), ("Status", v7)]) j ⟨"InvoiceDate", .date, true⟩
      = ([("InvoiceDate", v6)], []) := by
    apply piece_second
    · simp [PVDict.ofList, pyGet]
    · exact hb6
    · exact hc6
  have q7 : rowFieldPiece (PVDict.ofList
      [("Invoice", v1), ("CustomerID", v2), ("CustomerName", v3), ("Amount", v4),
       ("Currency", v5), ("InvoiceDate", v6), ("Status", v7)]) j ⟨"Status", .str, true⟩
      = ([("Status", v7)], []) := by
    apply piece_second
    · simp [PVDict.ofList, pyGet]
    · exact hb7
    · exact hc7
  show (((UPLOAD_SCHEMA.map (rowFieldPiece (PVDict.ofList
      [("Invoice", v1), ("CustomerID", v2), ("CustomerName", v3), ("Amount", v4),
       ("Currency", v5), ("InvoiceDate", v6), ("Status", v7)]) j)).map (·.1)).flatten,
    ((UPLOAD_SCHEMA.map (rowFieldPiece (PVDict.ofList
      [("Invoice", v1), ("CustomerID", v2), ("CustomerName", v3), ("Amount", v4),
       ("Currency", v5), ("InvoiceDate", v6), ("Status", v7)]) j)).map (·.2)).flatten) = _
  simp only [UPLOAD_SCHEMA, List.map_cons, List.map_nil]
  rw [q1, q2, q3, q4, q5, q6, q7]
  rfl

theorem revalidate_row (row : PyVal) (i j : Nat)
    (hdtv : rowDatetimeCellsValid row = true)
    (herr : (_validate_row row i).2 = [])
    (hstr : strCellsSanitized (_validate_row row i).1 = true) :
    _validate_row (rowToPyVal (_validate_row row i).1) j = ((_validate_row row i).1, []) := by
  cases row with
  | none => simp [_validate_row] at herr
  | bool b => simp [_validate_row] at herr
  | int n => simp [_validate_row] at herr
  | float dc => simp [_validate_row] at herr
  | str s => simp [_validate_row] at herr
  | datetime t => simp [_validate_row] at herr
  | list xs => simp [_validate_row] at herr
  | dict kvs =>
    have herr2 : ((UPLOAD_SCHEMA.map (rowFieldPiece kvs i)).map (·.2)).flatten = [] := herr
    simp only [UPLOAD_SCHEMA, List.map_cons, List.map_nil, List.flatten_cons, List.flatten_nil,
      List.append_nil, List.append_eq_nil] at herr2
    obtain ⟨h1, h2, h3, h4, h5, h6, h7⟩ := herr2
    obtain ⟨w1, hc1, hp1⟩ := piece_ok_of_no_error kvs i _ rfl h1
    obtain ⟨w2, hc2, hp2⟩ := piece_ok_of_no_error kvs i _ rfl h2
    obtain ⟨w3, hc3, hp3⟩ := piece_ok_of_no_error kvs i _ rfl h3
    obtain ⟨w4, hc4, hp4⟩ := piece_ok_of_no_error kvs i _ rfl h4
    obtain ⟨w5, hc5, hp5⟩ := piece_ok_of_no_error kvs i _ rfl h5
    obtain ⟨w6, hc6, hp6⟩ := piece_ok_of_no_error kvs i _ rfl h6
    obtain ⟨w7, hc7, hp7⟩ := piece_ok_of_no_error kvs i _ rfl h7
    obtain ⟨n1, rfl⟩ := coerce_int_shape _ _ _ _ hc1
    obtain ⟨n2, rfl⟩ := coerce_int_shape _ _ _ _ hc2
    obtain ⟨s3, rfl⟩ : ∃ s, w3 = .str s := ⟨_, coerce_str_shape _ _ _ _ hc3⟩
    obtain ⟨dec4, rfl, hcan4⟩ := coerce_float_shape _ _ _ _ hc4
    obtain ⟨s5, rfl⟩ : ∃ s, w5 = .str s := ⟨_, coerce_str_shape _ _ _ _ hc5⟩
    obtain ⟨dd6, rfl, hv6⟩ := coerce_date_shape _ _ _ _ (hdt_of_rowValid kvs _ hdtv) hc6
    obtain ⟨s7, rfl⟩ : ∃ s, w7 = .str s := ⟨_, coerce_str_shape _ _ _ _ hc7⟩
    have hrow : (_validate_row (.dict kvs) i).1
        = [("Invoice", .int n1), ("CustomerID", .int n2), ("CustomerName", .str s3),
           ("Amount", .float dec4), ("Currency", .str s5), ("InvoiceDate", .str (dateIso dd6)),
           ("Status", .str s7)] := by
      show (((UPLOAD_SCHEMA.map (rowFieldPiece kvs i)).map (·.1)).flatten) = _
      simp only [UPLOAD_SCHEMA, List.map_cons, List.map_nil]
      rw [hp1, hp2, hp3, hp4, hp5, hp6, hp7]
      rfl
    rw [hrow] at hstr
    simp only [strCellsSanitized, List.all_cons, List.all_nil, Bool.and_eq_true, beq_iff_eq,
      Bool.not_eq_true', true_and, and_true] at hstr
    rw [hrow]
    exact validate_row_seven (.int n1) (.int n2) (.str s3) (.float dec4) (.str s5)
      (.str (dateIso dd6)) (.str s7) j
      rfl rfl (sanitize_str_fix_blank s3 hstr.1.1 hstr.1.2) rfl
      (sanitize_str_fix_blank s5 hstr.2.1.1 hstr.2.1.2)
      (dateIso_blank_false dd6 hv6)
      (sanitize_str_fix_blank s7 hstr.2.2.2.1 hstr.2.2.2.2)
      (coerce_int_roundtrip n1 "Invoice" j) (coerce_int_roundtrip n2 "CustomerID" j)
      (coerce_str_roundtrip s3 hstr.1.1 "CustomerName" j)
      (coerce_float_roundtrip dec4 hcan4 "Amount" j)
      (coerce_str_roundtrip s5 hstr.2.1.1 "Currency" j)
      (coerce_date_roundtrip dd6 hv6 "InvoiceDate" j)
      (coerce_str_roundtrip s7 hstr.2.2.2.1 "Status" j)

-- ============ C7 lemma stack, part 6: batch round trip ============

theorem enumFrom1_length : ∀ (i : Nat) (l : List PyVal), (enumFrom1 i l).length = l.length
  | _, [] => rfl
  | i, a :: t => by
    simp only [enumFrom1, List.length_cons]
    rw [enumFrom1_length (i + 1) t]

theorem flatten_map_nil {α β : Type} : ∀ l : List α, (l.map fun _ => ([] : List β)).flatten = []
  | [] => rfl
  | a :: t => by
    simp only [List.map_cons, List.flatten_cons, List.nil_append]
    exact flatten_map_nil t

theorem flatten_eq_nil_all {α : Type} : ∀ l : List (List α), l.flatten = [] → ∀ x ∈ l, x = []
  | [], _, x, hx => absurd hx (List.not_mem_nil x)
  | a :: t, h, x, hx => by
    rw [List.flatten_cons] at h
    rcases List.append_eq_nil.mp h with ⟨h1, h2⟩
    rcases List.mem_cons.mp hx with h3 | h3
    · rw [h3]
      exact h1
    · exact flatten_eq_nil_all t h2 x h3

theorem revalidate_batch : ∀ (data : List PyVal) (i j : Nat),
    (∀ row ∈ data, rowDatetimeCellsValid row = true) →
    (∀ p ∈ enumFrom1 i data, (_validate_row p.2 p.1).2 = []) →
    (∀ p ∈ enumFrom1 i data, strCellsSanitized (_validate_row p.2 p.1).1 = true) →
    (enumFrom1 j (((enumFrom1 i data).map fun p => (_validate_row p.2 p.1).1).map rowToPyVal)).map
        (fun p => _validate_row p.2 p.1)
      = (enumFrom1 i data).map fun p => ((_validate_row p.2 p.1).1, [])
  | [], _, _, _, _, _ => rfl
  | row :: rest, i, j, hdtv, herr, hstr => by
    simp only [enumFrom1, List.map_cons]
    rw [revalidate_row row i j (hdtv row (List.mem_cons_self _ _))
        (herr (i, row) (List.mem_cons_self _ _)) (hstr (i, row) (List.mem_cons_self _ _))]
    rw [revalidate_batch rest (i + 1) (j + 1)
        (fun r hr => hdtv r (List.mem_cons_of_mem _ hr))
        (fun p hp => herr p (List.mem_cons_of_mem _ hp))
        (fun p hp => hstr p (List.mem_cons_of_mem _ hp))]

theorem validate_payload_unfold2 (cols : PyVal) (xs : PVList) (meta : PyVal) (nowU nowR : String) :
    _validate_upload_payload (mkIngestPayload cols (.list xs) meta) nowU nowR
      = (if !columnsMatch cols then
           Except.error ["Columns must exactly match: "
             ++ String.intercalate ", " UPLOAD_EXPECTED_COLUMNS]
         else if xs.toList.isEmpty then Except.error ["'data' must be a non-empty array of rows."]
         else if MAX_UPLOAD_ROWS < xs.toList.length then
           Except.error ["A maximum of " ++ natStr MAX_UPLOAD_ROWS ++ " rows is allowed per upload."]
         else if (collectRowErrors xs.toList).isEmpty then
           match _sanitize_meta meta (sanitizedKept xs.toList).length nowU nowR with
           | .error es => .error es
           | .ok m => .ok ⟨sanitizedKept xs.toList, UPLOAD_EXPECTED_COLUMNS, m⟩
         else Except.error (collectRowErrors xs.toList)) := rfl

/-- C7 (amended): validation is idempotent on every successfully validated
batch whose sanitized string cells are untouched by the 255-character
truncation (each is a non-empty fixed point of the sanitizer) and whose
`datetime`-object cells are values CPython's `datetime` could construct:
resubmitting the sanitized rows validates again with byte-identical rows. -/
theorem validator_idempotent_amended (cols meta : PyVal) (xs : PVList)
    (nowU nowR nowU2 nowR2 : String) (res : ValidatedUpload)
    (hok : _validate_upload_payload (mkIngestPayload cols (.list xs) meta) nowU nowR = .ok res)
    (hdtv : ∀ row ∈ xs.toList, rowDatetimeCellsValid row = true)
    (hstr : ∀ r ∈ res.rows, strCellsSanitized r = true) :
    _validate_upload_payload
        (mkIngestPayload uploadColumnsVal (.list (PVList.ofList (res.rows.map rowToPyVal))) .none)
        nowU2 nowR2
      = .ok ⟨res.rows, UPLOAD_EXPECTED_COLUMNS,
            ⟨"unknown.xlsx", nowU2, [], nowR2, res.rows.length⟩⟩ := by
  rw [validate_payload_unfold2] at hok
  split at hok
  next => exact Except.noConfusion hok
  next hcols =>
    split at hok
    next hemp => exact Except.noConfusion hok
    next hemp =>
      split at hok
      next hmax => exact Except.noConfusion hok
      next hmax =>
        split at hok
        next herrs =>
          split at hok
          next es hms => exact Except.noConfusion hok
          next m hms =>
            injection hok with hok
            have hrows : res.rows = sanitizedKept xs.toList := by rw [← hok]
            have hre : collectRowErrors xs.toList = [] := by
              simpa using herrs
            have hre2 : ((validateResults xs.toList).map (·.2)).flatten = [] := hre
            have hall : ∀ p ∈ enumFrom1 1 xs.toList, (_validate_row p.2 p.1).2 = [] := by
              intro p hp
              have hm1 : _validate_row p.2 p.1 ∈ validateResults xs.toList := by
                unfold validateResults
                exact List.mem_map_of_mem _ hp
              exact flatten_eq_nil_all _ hre2 _ (List.mem_map_of_mem _ hm1)
            have hall2 : ∀ r ∈ validateResults xs.toList, r.2 = [] := by
              intro r hr
              unfold validateResults at hr
              rcases List.mem_map.mp hr with ⟨p, hp, rfl⟩
              exact hall p hp
            have hkept : sanitizedKept xs.toList
                = (enumFrom1 1 xs.toList).map fun p => (_validate_row p.2 p.1).1 := by
              unfold sanitizedKept
              rw [List.filter_eq_self.mpr ?_]
              · unfold validateResults
                rw [List.map_map]
                rfl
              · intro r hr
                rw [hall2 r hr]
                rfl
            have hstrAll : ∀ p ∈ enumFrom1 1 xs.toList,
                strCellsSanitized (_validate_row p.2 p.1).1 = true := by
              intro p hp
              apply hstr
              rw [hrows, hkept]
              exact List.mem_map_of_mem _ hp
            have hbatch := revalidate_batch xs.toList 1 1 hdtv hall hstrAll
            have hLlen : ((enumFrom1 1 xs.toList).map fun p => (_validate_row p.2 p.1).1).length
                = xs.toList.length := by
              rw [List.length_map, enumFrom1_length]
            have hdne : xs.toList ≠ [] := by
              intro h0
              rw [h0] at hemp
              exact hemp rfl
            rw [validate_payload_unfold, hrows, hkept, toList_ofList]
            have hLne : ¬ ((((enumFrom1 1 xs.toList).map fun p =>
                (_validate_row p.2 p.1).1).map rowToPyVal).isEmpty = true) := by
              intro h0
              rw [List.isEmpty_iff, List.map_eq_nil_iff] at h0
              rw [h0] at hLlen
              exact hdne (List.eq_nil_of_length_eq_zero hLlen.symm)
            rw [if_neg hLne]
            rw [if_neg (by rw [List.length_map, hLlen]; omega)]
            have herr2 : collectRowErrors (((enumFrom1 1 xs.toList).map fun p =>
                (_validate_row p.2 p.1).1).map rowToPyVal) = [] := by
              unfold collectRowErrors validateResults
              rw [hbatch, List.map_map]
              have hcg : ((enumFrom1 1 xs.toList).map
                  ((·.2) ∘ fun p => ((_validate_row p.2 p.1).1, ([] : List String))))
                  = (enumFrom1 1 xs.toList).map fun _ => ([] : List String) :=
                List.map_congr_left fun p hp => rfl
              rw [hcg, flatten_map_nil]
            rw [if_pos (by rw [herr2]; rfl)]
            have hkept2 : sanitizedKept (((enumFrom1 1 xs.toList).map fun p =>
                (_validate_row p.2 p.1).1).map rowToPyVal)
                = (enumFrom1 1 xs.toList).map fun p => (_validate_row p.2 p.1).1 := by
              unfold sanitizedKept validateResults
              rw [hbatch]
              rw [List.filter_eq_self.mpr ?_]
              · rw [List.map_map]
                exact List.map_congr_left fun p hp => rfl
              · intro r hr
                rcases List.mem_map.mp hr with ⟨p, hp, rfl⟩
                rfl
            rw [hkept2]
            rfl
        next herrs2 => exact Except.noConfusion hok

theorem validator_idempotent_amended_witness :
    _validate_upload_payload
        (mkIngestPayload uploadColumnsVal
          (.list (PVList.ofList (([adaSanitizedRow] : List (List (String × PyVal))).map rowToPyVal)))
          .none) "U2" "R2"
      = .ok ⟨[adaSanitizedRow], UPLOAD_EXPECTED_COLUMNS, ⟨"unknown.xlsx", "U2", [], "R2", 1⟩⟩ :=
  validator_idempotent_amended uploadColumnsVal .none (PVList.ofList [adaRow]) "U" "R" "U2" "R2"
    ⟨[adaSanitizedRow], UPLOAD_EXPECTED_COLUMNS, ⟨"unknown.xlsx", "U", [], "R", 1⟩⟩
    (by decide) (by decide) (by decide)

set_option maxRecDepth 4000 in
theorem validator_idempotence_counterexample :
    _validate_upload_payload longNamePayload "U" "R"
        = .ok ⟨[longNameSanitizedRow], UPLOAD_EXPECTED_COLUMNS, ⟨"unknown.xlsx", "U", [], "R", 1⟩⟩
  ∧ _validate_upload_payload longNameSecondPayload "U" "R"
        = .ok ⟨[longNameTwiceRow], UPLOAD_EXPECTED_COLUMNS, ⟨"unknown.xlsx", "U", [], "R", 1⟩⟩
  ∧ longNameTwiceRow ≠ longNameSanitizedRow := by decide
